import Mathlib

/-!
# rtac_asio : execution engine (`AsyncService`) and read orchestrator (`StreamReader`)

The engine of `src/src/AsyncService.cpp` is embedded as a small-step transition
system: the calling thread and every worker thread own a program counter that
names the next source statement, and one `Action` executes one statement of one
thread.  An interleaving is a list of actions.

The clock is a number of milliseconds that `Action.tick` advances; statements take
no time of their own.

The library objects the engine uses are modelled after their documented behaviour:

* `io_context` (`service_`): a `stopped` flag and a FIFO queue of ready handlers.
  `stop()` sets the flag, `restart()` clears it, `post` appends a handler,
  `run()` returns as soon as the flag is set or when it runs out of work (and then
  sets the flag itself), and otherwise invokes ready handlers one by one.  A handler
  that raises makes `run()` raise.
* `deadline_timer` (`timer_`): one expiry time and a number of pending waits.
  `cancel()` and `expires_from_now()` complete every pending wait with
  `operation_aborted` (the handler is queued on the `io_context`); an expiry seen
  by `run()` completes them with success.
* `std::condition_variable` (`waitStart_`): a waiter is woken by `notify_one()` or
  spuriously, and must re-acquire the mutex before it returns from `wait`.
* `std::thread`: `join()` returns once the thread function has returned.  A thread
  whose exception has left `run()` takes no further step and is never joined (the
  process is aborting).

`StreamReader.cpp` is not among the sources; the read orchestrator is modelled
from the specification on top of the members declared in `StreamReader.h`.
-/

namespace rtac.asio

/-! ## Data model of the engine -/

/-- Error codes handed to a timer completion handler. -/
inductive ErrorCode
  | success            -- `ErrorCode()`
  | operation_aborted  -- `boost::asio::error::operation_aborted`
  deriving DecidableEq

/-- A `std::function<void()>` given to `post`: opaque, except for whether invoking
it raises (and which exception). -/
structure Work where
  id : Nat
  raises : Option Nat
  deriving DecidableEq

/-- A ready handler in the queue of `service_`. -/
inductive Handler
  | posted (f : Work)       -- queued by `boost::asio::post(service_, function)`
  | timer (err : ErrorCode) -- `std::bind(&AsyncService::timer_callback, this, _1)` completed with `err`
  deriving DecidableEq

/-- Control points of `AsyncService::run()`; each names the statement executed next. -/
inductive RunPc
  | lockWaitMutex          -- l.55  std::unique_lock<std::mutex> lock(waitMutex_)
  | checkIsRunning         -- l.56  if(isRunning_) return
  | setIsRunning           -- l.59  isRunning_ = true
  | setWaiterWasNotified   -- l.60  waiterWasNotified_ = true
  | notifyOne              -- l.62  waitStart_.notify_one()
  | unlockWaitMutex        -- l.63  end of the locked scope
  | restart                -- l.66  service_.restart()
  | timerCancel            -- l.69  timer_.cancel()
  | timerCallback          -- l.70  this->timer_callback(ErrorCode())
  | serviceRun             -- l.72  service_.run(), one loop iteration per step
  | catchReset (e : Nat)   -- l.77  isRunning_ = false   (in catch(...))
  | rethrow (e : Nat)      -- l.78  throw
  | resetIsRunning         -- l.81  isRunning_ = false
  | returnedEarly          -- run() has returned through l.57
  | returned               -- run() has returned through l.83
  | threw (e : Nat)        -- the exception `e` has left run()
  deriving DecidableEq

/-- A `std::thread` executing `run()`. -/
structure Thread where
  pc : RunPc
  joined : Bool
  deriving DecidableEq

/-- Calls the owner of the engine can make. -/
inductive Op
  | start
  | stop
  | post (f : Work)
  deriving DecidableEq

/-- Control points of the calling thread. -/
inductive CallerPc
  | idle                   -- between two calls
  | startLock              -- l.93  std::lock_guard<std::mutex> lock(startMutex_)
  | startCheckRunning      -- l.94  if(isRunning_) return
  | startCheckThread       -- l.97  if(thread_)
  | startServiceStop       -- l.98  service_.stop()
  | startJoin              -- l.99  thread_->join()
  | startResetThread       -- l.100 thread_ = nullptr
  | startLockWait          -- l.107 std::unique_lock<std::mutex> waiterLock(waitMutex_)
  | startSpawn             -- l.108 thread_ = std::make_unique<std::thread>(...)
  | startJoinable          -- l.109 if(!thread_->joinable()) throw
  | startClearNotified     -- l.115 waiterWasNotified_ = false
  | startWait              -- l.116 wait: evaluate the predicate under the lock
  | startWaiting           -- l.116 wait: blocked on waitStart_, waitMutex_ released
  | startReturn            -- l.117 release waitMutex_ and startMutex_
  | startThrew             -- the runtime_error of l.110 has left start()
  | stopLock               -- l.121 std::lock_guard<std::mutex> lock(startMutex_)
  | stopServiceStop        -- l.128 service_.stop()
  | stopCheckThread        -- l.129 if(thread_ && thread_->joinable())
  | stopJoin               -- l.130 thread_->join()
  | stopResetThread        -- l.132 thread_ = nullptr, then release startMutex_
  | postCall (f : Work)    -- l.137 boost::asio::post(service_, function)
  deriving DecidableEq

/-- Who invoked `timer_callback`. -/
inductive TimerOrigin
  | armedByRun                    -- the direct call of l.70
  | completion (err : ErrorCode)  -- a completed `async_wait`
  deriving DecidableEq

/-- One recorded invocation of `timer_callback`. -/
structure TimerCall where
  origin : TimerOrigin
  time : Nat
  deriving DecidableEq

/-- The engine, its two Boost objects, its threads and the clock. -/
structure State where
  -- members of AsyncService
  thread_ : Option Nat          -- handle: index into `threads`
  isRunning_ : Bool
  waiterWasNotified_ : Bool
  startMutex_ : Bool            -- locked?
  waitMutex_ : Bool             -- locked?
  waitStart_ : Bool             -- a wake-up is pending for the waiter
  -- service_
  stopped : Bool
  queue : List Handler
  -- timer_
  timer_expiry : Nat
  timer_waits : Nat
  -- environment
  now : Nat                     -- clock, in milliseconds
  threads : List Thread
  caller : CallerPc
  program : List Op             -- calls the owner still has to make
  -- history
  executed : List Work          -- posted functions invoked so far
  timerCalls : List TimerCall   -- invocations of timer_callback so far
  deriving DecidableEq

/-- State after the constructor (l.34-38).  `waiterWasNotified_` is not
initialised by the constructor, so its first value is a parameter. -/
def AsyncService (notified : Bool) (program : List Op) : State :=
  { thread_ := none, isRunning_ := false, waiterWasNotified_ := notified,
    startMutex_ := false, waitMutex_ := false, waitStart_ := false,
    stopped := false, queue := [],
    timer_expiry := 0, timer_waits := 0,
    now := 0, threads := [], caller := .idle, program := program,
    executed := [], timerCalls := [] }

/-! ## Boost objects -/

/-- Models `timer_.cancel()`: every pending wait completes with `operation_aborted`. -/
def cancel (s : State) : State :=
  { s with queue := s.queue ++ List.replicate s.timer_waits (.timer .operation_aborted),
           timer_waits := 0 }

/-- Models `timer_.expires_from_now(Millis(d))`: pending waits are cancelled and
the expiry is set `d` milliseconds ahead. -/
def expires_from_now (s : State) (d : Nat) : State :=
  { cancel s with timer_expiry := s.now + d }

/-- Models `timer_.async_wait(handler)`: one more pending wait. -/
def async_wait (s : State) : State :=
  { s with timer_waits := s.timer_waits + 1 }

/-! ## The engine's functions -/

/-- Body of `AsyncService::timer_callback` (l.45-50); the error code is ignored. -/
def timer_callback (s : State) (_err : ErrorCode) : State :=
  async_wait (expires_from_now s 1000)

/-- Reading of `AsyncService::is_running()` (l.85-89). -/
def is_running (s : State) : Bool := s.isRunning_

/-- Moves thread `i` to control point `pc`. -/
def goto (s : State) (i : Nat) (pc : RunPc) : State :=
  { s with threads := s.threads.modify (fun t => { t with pc := pc }) i }

/-- One statement of `AsyncService::run()` (l.52-83) executed by thread `i`;
`none` when the thread is blocked or has finished. -/
def run (s : State) (i : Nat) : Option State :=
  match s.threads[i]? with
  | none => none
  | some t =>
    match t.pc with
    | .lockWaitMutex =>
        if s.waitMutex_ then none
        else some (goto { s with waitMutex_ := true } i .checkIsRunning)
    | .checkIsRunning =>
        if s.isRunning_ then some (goto { s with waitMutex_ := false } i .returnedEarly)
        else some (goto s i .setIsRunning)
    | .setIsRunning => some (goto { s with isRunning_ := true } i .setWaiterWasNotified)
    | .setWaiterWasNotified =>
        some (goto { s with waiterWasNotified_ := true } i .notifyOne)
    | .notifyOne =>
        some (goto { s with waitStart_ := s.waitStart_ || (s.caller == .startWaiting) } i
          .unlockWaitMutex)
    | .unlockWaitMutex => some (goto { s with waitMutex_ := false } i .restart)
    | .restart => some (goto { s with stopped := false } i .timerCancel)
    | .timerCancel => some (goto (cancel s) i .timerCallback)
    | .timerCallback =>
        some (goto (timer_callback
          { s with timerCalls := s.timerCalls ++ [⟨.armedByRun, s.now⟩] } .success) i .serviceRun)
    | .serviceRun =>
        if s.stopped then some (goto s i .resetIsRunning)
        else
          match s.queue with
          | .posted f :: rest =>
              let s1 := { s with queue := rest, executed := s.executed ++ [f] }
              match f.raises with
              | some e => some (goto s1 i (.catchReset e))
              | none => some s1
          | .timer err :: rest =>
              some (timer_callback
                { s with queue := rest,
                         timerCalls := s.timerCalls ++ [⟨.completion err, s.now⟩] } err)
          | [] =>
              if s.timer_waits = 0 then some (goto { s with stopped := true } i .resetIsRunning)
              else if s.timer_expiry ≤ s.now then
                some { s with queue := List.replicate s.timer_waits (.timer .success),
                              timer_waits := 0 }
              else none
    | .catchReset e => some (goto { s with isRunning_ := false } i (.rethrow e))
    | .rethrow e => some (goto s i (.threw e))
    | .resetIsRunning => some (goto { s with isRunning_ := false } i .returned)
    | .returnedEarly => none
    | .returned => none
    | .threw _ => none

/-- The library call thread `i` is about to make inside the `try` block of `run()`
(l.66-72) raises `e`. -/
def run_raise (s : State) (i : Nat) (e : Nat) : Option State :=
  match s.threads[i]? with
  | none => none
  | some t =>
    match t.pc with
    | .restart | .timerCancel | .timerCallback | .serviceRun => some (goto s i (.catchReset e))
    | _ => none

/-- Has the thread behind handle `i` finished, so that `join()` returns? -/
def finished (s : State) (i : Nat) : Bool :=
  match s.threads[i]? with
  | some t => t.pc == .returned || t.pc == .returnedEarly
  | none => false

/-- Models `thread_->joinable()` for handle `i`. -/
def joinable (s : State) (i : Nat) : Bool :=
  match s.threads[i]? with
  | some t => !t.joined
  | none => false

/-- Marks thread `i` as joined. -/
def join (s : State) (i : Nat) : State :=
  { s with threads := s.threads.modify (fun t => { t with joined := true }) i }

/-- One statement of `AsyncService::start()` (l.91-117) executed by the caller. -/
def start (s : State) : Option State :=
  match s.caller with
  | .startLock =>
      if s.startMutex_ then none
      else some { s with startMutex_ := true, caller := .startCheckRunning }
  | .startCheckRunning =>
      if s.isRunning_ then some { s with startMutex_ := false, caller := .idle }
      else some { s with caller := .startCheckThread }
  | .startCheckThread =>
      match s.thread_ with
      | some _ => some { s with caller := .startServiceStop }
      | none => some { s with caller := .startLockWait }
  | .startServiceStop => some { s with stopped := true, caller := .startJoin }
  | .startJoin =>
      match s.thread_ with
      | some i => if finished s i then some { join s i with caller := .startResetThread } else none
      | none => none
  | .startResetThread => some { s with thread_ := none, caller := .startLockWait }
  | .startLockWait =>
      if s.waitMutex_ then none
      else some { s with waitMutex_ := true, caller := .startSpawn }
  | .startSpawn =>
      some { s with thread_ := some s.threads.length,
                    threads := s.threads ++ [{ pc := .lockWaitMutex, joined := false }],
                    caller := .startJoinable }
  | .startJoinable =>
      match s.thread_ with
      | some i =>
          if joinable s i then some { s with caller := .startClearNotified }
          else some { s with waitMutex_ := false, startMutex_ := false, caller := .startThrew }
      | none => none
  | .startClearNotified => some { s with waiterWasNotified_ := false, caller := .startWait }
  | .startWait =>
      if s.waiterWasNotified_ then some { s with caller := .startReturn }
      else some { s with waitMutex_ := false, waitStart_ := false, caller := .startWaiting }
  | .startWaiting =>
      if s.waitStart_ && !s.waitMutex_ then
        some { s with waitStart_ := false, waitMutex_ := true, caller := .startWait }
      else none
  | .startReturn => some { s with waitMutex_ := false, startMutex_ := false, caller := .idle }
  | _ => none

/-- One statement of `AsyncService::stop()` (l.119-133) executed by the caller. -/
def stop (s : State) : Option State :=
  match s.caller with
  | .stopLock =>
      if s.startMutex_ then none
      else some { s with startMutex_ := true, caller := .stopServiceStop }
  | .stopServiceStop => some { s with stopped := true, caller := .stopCheckThread }
  | .stopCheckThread =>
      match s.thread_ with
      | some i =>
          if joinable s i then some { s with caller := .stopJoin }
          else some { s with caller := .stopResetThread }
      | none => some { s with caller := .stopResetThread }
  | .stopJoin =>
      match s.thread_ with
      | some i => if finished s i then some { join s i with caller := .stopResetThread } else none
      | none => none
  | .stopResetThread => some { s with thread_ := none, startMutex_ := false, caller := .idle }
  | _ => none

/-- Body of `AsyncService::post` (l.135-138). -/
def post (s : State) (f : Work) : State :=
  { s with queue := s.queue ++ [.posted f] }

/-- The calling thread executes its next statement. -/
def call (s : State) : Option State :=
  match s.caller with
  | .idle =>
      match s.program with
      | [] => none
      | .start :: rest => some { s with program := rest, caller := .startLock }
      | .stop :: rest => some { s with program := rest, caller := .stopLock }
      | .post f :: rest => some { s with program := rest, caller := .postCall f }
  | .postCall f => some { post s f with caller := .idle }
  | .startThrew => none
  | .stopLock | .stopServiceStop | .stopCheckThread | .stopJoin | .stopResetThread => stop s
  | _ => start s

/-! ## Interleavings -/

/-- One scheduling decision. -/
inductive Action
  | caller                    -- the calling thread executes one statement
  | worker (i : Nat)          -- thread `i` executes one statement of run()
  | raise (i : Nat) (e : Nat) -- the library call thread `i` is about to make raises `e`
  | tick                      -- one millisecond elapses
  | spurious                  -- spurious wake-up of the waiter on waitStart_
  deriving DecidableEq

/-- Effect of one scheduling decision; `none` when it is not enabled. -/
def step (a : Action) (s : State) : Option State :=
  match a with
  | .caller => call s
  | .worker i => run s i
  | .raise i e => run_raise s i e
  | .tick => some { s with now := s.now + 1 }
  | .spurious => if s.caller = .startWaiting then some { s with waitStart_ := true } else none

/-- Effect of an interleaving. -/
def exec : List Action → State → Option State
  | [], s => some s
  | a :: as, s => (step a s).bind (exec as)

/-- The thread behind the handle `thread_`, if any. -/
def cur (s : State) : Option Thread :=
  match s.thread_ with
  | some i => s.threads[i]?
  | none => none

/-- Control points from which run() takes no further step through l.83 or l.57. -/
def RunPc.finished : RunPc → Bool
  | .returned | .returnedEarly => true
  | _ => false

/-- Control points at which the thread holds `waitMutex_`. -/
def RunPc.holds : RunPc → Bool
  | .checkIsRunning | .setIsRunning | .setWaiterWasNotified | .notifyOne | .unlockWaitMutex => true
  | _ => false

/-- Control points after the locked scope of l.54-63. -/
def RunPc.after : RunPc → Bool
  | .restart | .timerCancel | .timerCallback | .serviceRun | .catchReset _ | .rethrow _
  | .resetIsRunning | .returned | .threw _ => true
  | _ => false

/-- Control points between `isRunning_ = true` (l.59) and its reset (l.77 or l.81). -/
def RunPc.running : RunPc → Bool
  | .setWaiterWasNotified | .notifyOne | .unlockWaitMutex | .restart | .timerCancel
  | .timerCallback | .serviceRun | .catchReset _ | .resetIsRunning => true
  | _ => false

/-- Control points after `waiterWasNotified_ = true` (l.60). -/
def RunPc.announced (pc : RunPc) : Bool :=
  pc.after || pc == .notifyOne || pc == .unlockWaitMutex

/-- How far the current thread may be, given where the caller is. -/
def phaseOk (c : CallerPc) (n m : Bool) : Option Thread → Bool
  | none =>
      match c with
      | .startSpawn => m
      | .startJoinable | .startClearNotified | .startWait | .startWaiting | .startReturn
      | .startThrew => false
      | _ => !m
  | some t =>
      match c with
      | .startLockWait | .startSpawn | .startThrew => false
      | .startJoinable | .startClearNotified => m && t.pc == .lockWaitMutex && !t.joined
      | .startWait => m && !t.joined && (if n then t.pc.after else t.pc == .lockWaitMutex)
      | .startWaiting =>
          !t.joined && (m == t.pc.holds) &&
            (if n then t.pc.announced else !t.pc.announced && t.pc != .returnedEarly)
      | .startReturn => m && n && t.pc.after
      | .startResetThread | .stopResetThread => !m && t.joined
      | _ => !m && t.pc.after

/-- Invariant of every interleaving. -/
structure Consistent (s : State) : Prop where
  others : ∀ (j : Nat) (t : Thread), s.threads[j]? = some t → s.thread_ ≠ some j → t.joined = true
  fin : ∀ (j : Nat) (t : Thread), s.threads[j]? = some t → t.joined = true → t.pc.finished = true
  valid : ∀ i, s.thread_ = some i → i < s.threads.length
  running : s.isRunning_ = (match cur s with | some t => t.pc.running | none => false)
  phase : phaseOk s.caller s.waiterWasNotified_ s.waitMutex_ (cur s) = true

/-- Control point of thread `i`. -/
def pcOf (s : State) (i : Nat) : Option RunPc := (s.threads[i]?).map Thread.pc

/-- Statements inside the `try` block of run() (l.66-72). -/
def RunPc.inTry : RunPc → Bool
  | .restart | .timerCancel | .timerCallback | .serviceRun => true
  | _ => false

/-- Control points at which a thread is no longer executing run(). -/
def RunPc.exited : RunPc → Bool
  | .returned | .returnedEarly | .threw _ => true
  | _ => false

/-- Schedule in which the worker leaves the loop before the caller wakes up: a
function that raises is posted, then start() runs up to its wait, the worker runs
through l.77, and only then does the caller wake and reach l.117. -/
def early_exit_trace : List Action :=
  List.replicate 11 .caller ++ List.replicate 11 (.worker 0) ++ List.replicate 2 .caller

/-- Program of `early_exit_trace`. -/
def early_exit_program : List Op := [.post ⟨7, some 1⟩, .start]

/-- The engine at the end of `early_exit_trace`: the caller is about to return
from start() (l.117) while the worker has already executed l.77. -/
def engine_left : State :=
  { thread_ := some 0, isRunning_ := false, waiterWasNotified_ := true,
    startMutex_ := true, waitMutex_ := true, waitStart_ := false,
    stopped := false, queue := [], timer_expiry := 1000, timer_waits := 1,
    now := 0, threads := [{ pc := .rethrow 1, joined := false }],
    caller := .startReturn, program := [], executed := [{ id := 7, raises := some 1 }],
    timerCalls := [{ origin := .armedByRun, time := 0 }] }

/-- At most one thread of the engine has not been joined. -/
def OneUnjoined (s : State) : Prop :=
  ∀ (j k : Nat) (tj tk : Thread), s.threads[j]? = some tj → s.threads[k]? = some tk →
    tj.joined = false → tk.joined = false → j = k

/-- A worker spawned by start(): at the first statement of run(), not joined. -/
def spawned : Thread := { pc := .lockWaitMutex, joined := false }

/-- Control points from which run() cannot reach its normal exit without
`service_` being stopped once more. -/
def RunPc.noExit : RunPc → Bool
  | .timerCancel | .timerCallback | .serviceRun | .catchReset _ | .rethrow _ | .threw _ => true
  | _ => false

/-- Inside stop(), after l.128: the event context is stopped, unless the worker
has cleared the flag again at l.66 and is still inside its loop. -/
def StopRequested (s : State) : Prop :=
  (s.caller = .stopCheckThread ∨ s.caller = .stopJoin ∨ s.caller = .stopResetThread) →
    s.stopped = true ∨ ∃ t, cur s = some t ∧ t.pc.noExit = true

/-- An engine between two calls of its owner: the caller is idle, both mutexes
are free, and either no handle is held (never started, or already stopped: every
thread is finished and joined), or the handle of one unjoined worker is held that
has passed the locked scope of run() (started: still in its loop, or already out
of it) while every other thread is finished and joined; `isRunning_` is true
exactly while that worker is between l.59 and l.77 or l.81. -/
def Quiescent (s : State) : Prop :=
  s.caller = .idle ∧ s.startMutex_ = false ∧ s.waitMutex_ = false ∧
    ((s.thread_ = none ∧ s.isRunning_ = false ∧
        ∀ (j : Nat) (t : Thread), s.threads[j]? = some t →
          t.joined = true ∧ t.pc.finished = true) ∨
      ∃ (i : Nat) (pc : RunPc), s.thread_ = some i ∧ s.threads[i]? = some ⟨pc, false⟩ ∧
        pc.after = true ∧ s.isRunning_ = pc.running ∧
        ∀ (j : Nat) (t : Thread), s.threads[j]? = some t → j ≠ i →
          t.joined = true ∧ t.pc.finished = true)

/-- Control points of a thread whose exception is on its way out of run(). -/
def RunPc.dead : RunPc → Bool
  | .catchReset _ | .rethrow _ | .threw _ => true
  | _ => false

/-- The event context has work: a pending wait on `timer_`, or a completed wait
whose handler is still queued. -/
def hasWork (s : State) : Prop :=
  0 < s.timer_waits ∨ ∃ err, Handler.timer err ∈ s.queue

/-- The caller is blocked in the join of stop() (l.130) while the only worker sits
in a loop that is not stopped and never runs out of work (or is dying). -/
def Stuck (s : State) : Prop :=
  s.caller = .stopJoin ∧ s.thread_ = some 0 ∧
    ∃ pc, s.threads = [⟨pc, false⟩] ∧
      (pc.dead = true ∨ (pc = .serviceRun ∧ s.stopped = false ∧ hasWork s))

/-- Schedule of the race: start() returns while the worker is still before l.66;
stop() runs up to its join; only then does the worker execute restart(). -/
def stop_race_trace : List Action :=
  List.replicate 9 .caller ++ List.replicate 6 (.worker 0) ++ List.replicate 7 .caller ++
    List.replicate 3 (.worker 0)

/-- The engine at the end of `stop_race_trace`. -/
def engine_hung : State :=
  { thread_ := some 0, isRunning_ := true, waiterWasNotified_ := true,
    startMutex_ := true, waitMutex_ := false, waitStart_ := false,
    stopped := false, queue := [], timer_expiry := 1000, timer_waits := 1,
    now := 0, threads := [{ pc := .serviceRun, joined := false }],
    caller := .stopJoin, program := [], executed := [],
    timerCalls := [{ origin := .armedByRun, time := 0 }] }

/-- Thread `i` is inside `service_.run()`, the loop is not stopped, the only ready
handler is an aborted keep-alive completion and one keep-alive wait is pending. -/
def Spinning (s : State) (i : Nat) : Prop :=
  pcOf s i = some .serviceRun ∧ s.stopped = false ∧
    s.queue = [.timer .operation_aborted] ∧ s.timer_waits = 1

/-- The record of a keep-alive callback invoked with `operation_aborted` at time `t`. -/
def abortedCall (t : Nat) : TimerCall := ⟨.completion .operation_aborted, t⟩

/-- Schedule of one start(): the caller runs up to its wait, the worker runs up
to its loop, the caller wakes up and returns. -/
def start_trace (i : Nat) : List Action :=
  List.replicate 9 .caller ++ List.replicate 9 (.worker i) ++ List.replicate 3 .caller

/-- Schedule of a stop() that, five milliseconds later, finds worker `i` inside its
loop: up to and including the join of l.130. -/
def join_trace (i : Nat) : List Action :=
  List.replicate 5 .tick ++ List.replicate 4 .caller ++ List.replicate 2 (.worker i) ++
    [.caller]

/-- Schedule of that stop() up to its return. -/
def stop_trace (i : Nat) : List Action := join_trace i ++ [.caller]

/-- Schedule of two start cycles: start(), 5 ms, stop(), start(). -/
def restart_trace : List Action := start_trace 0 ++ stop_trace 0 ++ start_trace 1

/-- The engine after its first start(): the worker is inside `service_.run()`
with the keep-alive wait pending. -/
def engine_started (rest : List Op) : State :=
  { thread_ := some 0, isRunning_ := true, waiterWasNotified_ := true,
    startMutex_ := false, waitMutex_ := false, waitStart_ := false,
    stopped := false, queue := [], timer_expiry := 1000, timer_waits := 1,
    now := 0, threads := [{ pc := .serviceRun, joined := false }],
    caller := .idle, program := rest, executed := [],
    timerCalls := [{ origin := .armedByRun, time := 0 }] }

/-- The engine inside stop(), after the join and before l.132. -/
def engine_joined (rest : List Op) : State :=
  { thread_ := some 0, isRunning_ := false, waiterWasNotified_ := true,
    startMutex_ := true, waitMutex_ := false, waitStart_ := false,
    stopped := true, queue := [], timer_expiry := 1000, timer_waits := 1,
    now := 5, threads := [{ pc := .returned, joined := true }],
    caller := .stopResetThread, program := rest, executed := [],
    timerCalls := [{ origin := .armedByRun, time := 0 }] }

/-- The engine after start() and stop(): no worker, and the keep-alive wait of the
first cycle still pending on `timer_`. -/
def engine_stopped (rest : List Op) : State :=
  { thread_ := none, isRunning_ := false, waiterWasNotified_ := true,
    startMutex_ := false, waitMutex_ := false, waitStart_ := false,
    stopped := true, queue := [], timer_expiry := 1000, timer_waits := 1,
    now := 5, threads := [{ pc := .returned, joined := true }],
    caller := .idle, program := rest, executed := [],
    timerCalls := [{ origin := .armedByRun, time := 0 }] }

/-- The engine after start(), stop(), start(): the second worker is inside
`service_.run()` with an aborted keep-alive completion ready. -/
def engine_restarted (rest : List Op) : State :=
  { thread_ := some 1, isRunning_ := true, waiterWasNotified_ := true,
    startMutex_ := false, waitMutex_ := false, waitStart_ := false,
    stopped := false, queue := [.timer .operation_aborted],
    timer_expiry := 1005, timer_waits := 1,
    now := 5, threads := [{ pc := .returned, joined := true },
                          { pc := .serviceRun, joined := false }],
    caller := .idle, program := rest, executed := [],
    timerCalls := [{ origin := .armedByRun, time := 0 }, { origin := .armedByRun, time := 5 }] }

/-- What the user callback is told. -/
inductive ReadError
  | none                 -- no error
  | stream (code : Nat)  -- error reported by the stream
  | timeout              -- the deadline elapsed
  deriving DecidableEq

/-- A completion delivered on the worker thread, tagged with the `readId` bound
into it when it was issued. -/
inductive Completion
  | data (readId : Nat) (err : Option Nat) (readCount : Nat)  -- async_read_continue
  | timer (readId : Nat) (err : ErrorCode)                    -- timeout_reached
  deriving DecidableEq

/-- The `readId` a completion carries. -/
def Completion.readId : Completion → Nat
  | .data id _ _ => id
  | .timer id _ => id

/-- An operation the reader has asked of the stream or of its timer. -/
inductive Issued
  | readSome (readId : Nat) (count : Nat) (dst : Nat)  -- stream_->async_read_some bound to readId
  | wait (readId : Nat) (millis : Nat)                 -- timer_.async_wait bound to readId
  | cancelTimer
  | cancelRead
  deriving DecidableEq

/-- Members of `StreamReader` (StreamReader.h l.59-64) and a record of what the
reader did.  `dst_` is an offset into the caller's buffer. -/
structure StreamReader where
  readCounter_ : Nat
  readId_ : Nat
  requestedSize_ : Nat
  processed_ : Nat
  dst_ : Nat
  callbacks : List (ReadError × Nat)  -- invocations of callback_, oldest first
  issued : List Issued                -- operations issued, oldest first
  deriving DecidableEq

/-- Modelled from the spec: the generation counter `read_id` is an `unsigned int`;
"bumping" it adds one modulo 2^32.  (StreamReader.cpp is not among the sources.) -/
def bump (id : Nat) : Nat := (id + 1) % 2 ^ 32

/-- Modelled from the spec: finalization of a read (§4.2: the side that finalizes
first bumps `read_id`, cancels the other pending notification and invokes the
callback once with the accumulated count).  StreamReader.cpp is not among the
sources. -/
def finalize (r : StreamReader) (err : ReadError) (other : Issued) : StreamReader :=
  { r with readId_ := bump r.readId_,
           issued := r.issued ++ [other],
           callbacks := r.callbacks ++ [(err, r.processed_)] }

/-- Modelled from the spec: `async_read(count, data, callback, timeoutMillis)` (§3,
§4.2: a new logical read bumps `read_id`, resets the descriptor, arms the timer
only if `timeoutMillis > 0`, and issues the first partial read).  The spec does not
mention `readCounter_`; the model leaves it alone.  StreamReader.cpp is not among
the sources. -/
def async_read (r : StreamReader) (count data timeoutMillis : Nat) : StreamReader :=
  let id := bump r.readId_
  { r with readId_ := id, requestedSize_ := count, processed_ := 0, dst_ := data,
           issued := r.issued ++
             (if 0 < timeoutMillis then [Issued.wait id timeoutMillis] else []) ++
             [Issued.readSome id count data] }

/-- Modelled from the spec: `async_read_continue(readId, err, readCount)` (§4.2: a
completion whose `read_id` is not the current one is discarded; otherwise the count
is accumulated, and the read finalizes on an error or when the requested size is
reached, else the next partial read is issued for the remainder).
StreamReader.cpp is not among the sources. -/
def async_read_continue (r : StreamReader) (readId : Nat) (err : Option Nat)
    (readCount : Nat) : StreamReader :=
  if readId ≠ r.readId_ then r
  else
    let r1 := { r with processed_ := (r.processed_ + readCount) % 2 ^ 64 }
    match err with
    | some code => finalize r1 (.stream code) .cancelTimer
    | none =>
        if r1.processed_ = r1.requestedSize_ then finalize r1 .none .cancelTimer
        else
          { r1 with issued := r1.issued ++
              [Issued.readSome readId (r1.requestedSize_ - r1.processed_)
                (r1.dst_ + r1.processed_)] }

/-- Modelled from the spec: `timeout_reached(readId, err)` (§4.2: a stale timer
completion is discarded; otherwise the pending read is cancelled and the callback
gets a timeout error with the count accumulated so far).  StreamReader.cpp is not
among the sources. -/
def timeout_reached (r : StreamReader) (readId : Nat) (_err : ErrorCode) : StreamReader :=
  if readId ≠ r.readId_ then r
  else finalize r .timeout .cancelRead

/-- Delivery of one completion to the reader. -/
def deliver (r : StreamReader) : Completion → StreamReader
  | .data id err n => async_read_continue r id err n
  | .timer id err => timeout_reached r id err

/-- The `readId` an issued operation is bound to, if it is a completion source. -/
def Issued.readId : Issued → Option Nat
  | .readSome id _ _ => some id
  | .wait id _ => some id
  | _ => none

/-- The engine when start() is about to return (l.117) with the worker inside its
loop. -/
def engine_returning (rest : List Op) : State :=
  { thread_ := some 0, isRunning_ := true, waiterWasNotified_ := true,
    startMutex_ := true, waitMutex_ := true, waitStart_ := false,
    stopped := false, queue := [], timer_expiry := 1000, timer_waits := 1,
    now := 0, threads := [{ pc := .serviceRun, joined := false }],
    caller := .startReturn, program := rest, executed := [],
    timerCalls := [{ origin := .armedByRun, time := 0 }] }

/-- Schedule of a start() up to l.117. -/
def returning_trace : List Action :=
  List.replicate 9 .caller ++ List.replicate 9 (.worker 0) ++ List.replicate 2 .caller

/-- Schedule in which the worker reaches its loop with a posted function queued. -/
def raising_trace : List Action :=
  List.replicate 11 .caller ++ List.replicate 9 (.worker 0)

/-- The engine at the end of `raising_trace`: the worker is about to invoke a
function that raises exception 1. -/
def engine_raising : State :=
  { thread_ := some 0, isRunning_ := true, waiterWasNotified_ := true,
    startMutex_ := true, waitMutex_ := false, waitStart_ := true,
    stopped := false, queue := [.posted { id := 7, raises := some 1 }],
    timer_expiry := 1000, timer_waits := 1,
    now := 0, threads := [{ pc := .serviceRun, joined := false }],
    caller := .startWaiting, program := [], executed := [],
    timerCalls := [{ origin := .armedByRun, time := 0 }] }

/-- An engine whose worker has left its loop although stop() was never called,
with the owner inside a new start() at l.94.  The interleavings of
start/stop/post do not produce it; it is the state the cleanup of l.97-101 is
written for. -/
def engine_exited : State :=
  { thread_ := some 0, isRunning_ := false, waiterWasNotified_ := true,
    startMutex_ := true, waitMutex_ := false, waitStart_ := false,
    stopped := true, queue := [], timer_expiry := 1000, timer_waits := 1,
    now := 0, threads := [{ pc := .returned, joined := false }],
    caller := .startCheckRunning, program := [], executed := [],
    timerCalls := [{ origin := .armedByRun, time := 0 }] }

/-- An engine whose worker has left its loop and returned from run() without
having been joined, with the owner about to call stop() twice: the case
"started and already exited". -/
def engine_exited_idle : State :=
  { thread_ := some 0, isRunning_ := false, waiterWasNotified_ := true,
    startMutex_ := false, waitMutex_ := false, waitStart_ := false,
    stopped := true, queue := [], timer_expiry := 1000, timer_waits := 1,
    now := 0, threads := [{ pc := .returned, joined := false }],
    caller := .idle, program := [.stop, .stop], executed := [],
    timerCalls := [{ origin := .armedByRun, time := 0 }] }

/-- A reader that has not read yet. -/
def reader0 : StreamReader :=
  { readCounter_ := 0, readId_ := 0, requestedSize_ := 0, processed_ := 0, dst_ := 0,
    callbacks := [], issued := [] }

/-- Two bytes arrive, the 50 ms deadline fires, then two late bytes arrive: all
three completions belong to generation 1. -/
def late_events : List Completion :=
  [.data 1 none 2, .timer 1 .success, .data 1 none 2]

/-! ## Invariants of the interleavings, and the claims -/

theorem inv_init (n : Bool) (p : List Op) : Consistent (AsyncService n p) := by
  constructor <;> simp [AsyncService, cur, phaseOk]

theorem goto_threads (s : State) (i : Nat) (pc : RunPc) (j : Nat) :
    (goto s i pc).threads[j]? =
      (s.threads[j]?).map (fun t => if i = j then { t with pc := pc } else t) := by
  simp [goto, List.getElem?_modify]

/-- A thread that can take a step is the one behind `thread_`. -/
theorem stepper_is_cur {s : State} (h : Consistent s) {i : Nat} {t : Thread}
    (ht : s.threads[i]? = some t) (hp : t.pc.finished = false) : s.thread_ = some i := by
  by_contra hne
  have := h.fin i t ht (h.others i t ht hne)
  simp [this] at hp

theorem cur_of {s : State} {i : Nat} {t : Thread} (h : s.thread_ = some i)
    (ht : s.threads[i]? = some t) : cur s = some t := by
  simp [cur, h, ht]

/-- Consistency only reads the thread table, the handle, the caller's control
point, the two flags and `waitMutex_`. -/
theorem consistent_congr {s s' : State} (h : Consistent s)
    (e1 : s'.thread_ = s.thread_) (e2 : s'.threads = s.threads) (e3 : s'.caller = s.caller)
    (e4 : s'.isRunning_ = s.isRunning_) (e5 : s'.waiterWasNotified_ = s.waiterWasNotified_)
    (e6 : s'.waitMutex_ = s.waitMutex_) : Consistent s' := by
  have hc : cur s' = cur s := by simp [cur, e1, e2]
  constructor
  · rw [e1, e2]; exact h.others
  · rw [e2]; exact h.fin
  · rw [e1, e2]; exact h.valid
  · rw [e4, hc]; exact h.running
  · rw [e3, e5, e6, hc]; exact h.phase

/-- The current thread moves to `pc`, possibly changing flags on the way. -/
theorem consistent_goto {s s0 : State} (h : Consistent s) {i : Nat} {t : Thread}
    (hi : s.threads[i]? = some t) (hth : s.thread_ = some i) (hj : t.joined = false)
    (e1 : s0.thread_ = s.thread_) (e2 : s0.threads = s.threads) (e3 : s0.caller = s.caller)
    (pc : RunPc)
    (hrun : s0.isRunning_ = pc.running)
    (hph : phaseOk s.caller s0.waiterWasNotified_ s0.waitMutex_ (some ⟨pc, false⟩) = true) :
    Consistent (goto s0 i pc) := by
  have hlen : i < s.threads.length := h.valid i hth
  have hc : cur (goto s0 i pc) = some ⟨pc, false⟩ := by
    simp [cur, goto, e1, e2, hth, hi, List.getElem?_modify, ← hj]
  constructor
  · intro j u hu hne
    rw [goto_threads, e2] at hu
    have hne' : s.thread_ ≠ some j := by simpa [goto, e1] using hne
    have hij : i ≠ j := by rintro rfl; exact hne' hth
    cases hj' : s.threads[j]? with
    | none => simp [hj'] at hu
    | some v =>
      simp [hj', hij] at hu
      subst hu
      exact h.others j v hj' hne'
  · intro j u hu hjo
    rw [goto_threads, e2] at hu
    cases hj' : s.threads[j]? with
    | none => simp [hj'] at hu
    | some v =>
      by_cases hij : i = j
      · subst hij
        rw [hi] at hj'; cases hj'
        simp [hi] at hu
        subst hu
        simp [hj] at hjo
      · simp [hj', hij] at hu
        subst hu
        exact h.fin j v hj' hjo
  · intro k hk
    simp [goto, e1, e2] at hk ⊢
    exact h.valid k hk
  · rw [hc]; simpa [goto] using hrun
  · rw [hc]; simpa [goto, e3] using hph

/-- What consistency says about a thread that is not finished. -/
theorem stepper_facts {s : State} (h : Consistent s) {i : Nat} {t : Thread}
    (ht : s.threads[i]? = some t) (hp : t.pc.finished = false) :
    s.thread_ = some i ∧ t.joined = false ∧ cur s = some t ∧ s.isRunning_ = t.pc.running ∧
      phaseOk s.caller s.waiterWasNotified_ s.waitMutex_ (some t) = true := by
  have hth := stepper_is_cur h ht hp
  have hc := cur_of hth ht
  refine ⟨hth, ?_, hc, ?_, ?_⟩
  · cases hj : t.joined with
    | false => rfl
    | true => have := h.fin i t ht hj; simp [this] at hp
  · have := h.running; rw [hc] at this; exact this
  · have := h.phase; rw [hc] at this; exact this

theorem run_preserves {s s' : State} (h : Consistent s) {i : Nat} (hs : run s i = some s') :
    Consistent s' := by
  unfold run at hs
  cases ht : s.threads[i]? with
  | none => simp [ht] at hs
  | some t =>
    obtain ⟨pc, jd⟩ := t
    simp only [ht] at hs
    by_cases hfin : pc.finished = true
    · cases pc <;> simp [RunPc.finished] at hfin <;> simp at hs
    obtain ⟨hth, hj, hc, hrun, hph⟩ := stepper_facts h ht (by simpa using hfin)
    simp only at hj hrun hph
    subst hj
    cases pc with
    | lockWaitMutex =>
      by_cases hm : s.waitMutex_ = true
      · simp [hm] at hs
      · simp only [hm] at hs
        cases hs
        refine consistent_goto h ht hth rfl ?_ ?_ ?_ _ ?_ ?_
        · rfl
        · rfl
        · rfl
        · simpa [RunPc.running] using hrun
        · cases hcl : s.caller <;>
            simp_all [phaseOk, RunPc.after, RunPc.holds, RunPc.announced]
    | checkIsRunning =>
      have hr : s.isRunning_ = false := by simpa [RunPc.running] using hrun
      simp only [hr] at hs
      cases hs
      refine consistent_goto h ht hth rfl ?_ ?_ ?_ _ ?_ ?_
      · rfl
      · rfl
      · rfl
      · simpa [RunPc.running] using hrun
      · cases hcl : s.caller <;>
          simp_all [phaseOk, RunPc.after, RunPc.holds, RunPc.announced]
    | setIsRunning =>
      cases hs
      refine consistent_goto h ht hth rfl ?_ ?_ ?_ _ ?_ ?_
      · rfl
      · rfl
      · rfl
      · simp [RunPc.running]
      · cases hcl : s.caller <;>
          simp_all [phaseOk, RunPc.after, RunPc.holds, RunPc.announced]
    | setWaiterWasNotified =>
      cases hs
      refine consistent_goto h ht hth rfl ?_ ?_ ?_ _ ?_ ?_
      · rfl
      · rfl
      · rfl
      · simpa [RunPc.running] using hrun
      · cases hcl : s.caller <;>
          simp_all [phaseOk, RunPc.after, RunPc.holds, RunPc.announced]
    | notifyOne =>
      cases hs
      refine consistent_goto h ht hth rfl ?_ ?_ ?_ _ ?_ ?_
      · rfl
      · rfl
      · rfl
      · simpa [RunPc.running] using hrun
      · cases hcl : s.caller <;>
          simp_all [phaseOk, RunPc.after, RunPc.holds, RunPc.announced]
    | unlockWaitMutex =>
      cases hs
      refine consistent_goto h ht hth rfl ?_ ?_ ?_ _ ?_ ?_
      · rfl
      · rfl
      · rfl
      · simpa [RunPc.running] using hrun
      · cases hcl : s.caller <;>
          simp_all [phaseOk, RunPc.after, RunPc.holds, RunPc.announced]
    | restart =>
      cases hs
      refine consistent_goto h ht hth rfl ?_ ?_ ?_ _ ?_ ?_
      · rfl
      · rfl
      · rfl
      · simpa [RunPc.running] using hrun
      · cases hcl : s.caller <;>
          simp_all [phaseOk, RunPc.after, RunPc.holds, RunPc.announced]
    | timerCancel =>
      cases hs
      refine consistent_goto h ht hth rfl ?_ ?_ ?_ _ ?_ ?_
      · rfl
      · rfl
      · rfl
      · simpa [RunPc.running, cancel] using hrun
      · cases hcl : s.caller <;>
          simp_all [phaseOk, RunPc.after, RunPc.holds, RunPc.announced, cancel]
    | timerCallback =>
      cases hs
      refine consistent_goto h ht hth rfl ?_ ?_ ?_ _ ?_ ?_
      · rfl
      · rfl
      · rfl
      · simpa [RunPc.running, timer_callback, async_wait, expires_from_now, cancel] using hrun
      · cases hcl : s.caller <;>
          simp_all [phaseOk, RunPc.after, RunPc.holds, RunPc.announced, timer_callback,
            async_wait, expires_from_now, cancel]
    | serviceRun =>
      by_cases hst : s.stopped = true
      · simp only [hst, if_true] at hs
        cases hs
        refine consistent_goto h ht hth rfl ?_ ?_ ?_ _ ?_ ?_
        · rfl
        · rfl
        · rfl
        · simpa [RunPc.running] using hrun
        · cases hcl : s.caller <;>
            simp_all [phaseOk, RunPc.after, RunPc.holds, RunPc.announced]
      · simp only [hst] at hs
        cases hq : s.queue with
        | nil =>
          simp only [hq] at hs
          by_cases hw : s.timer_waits = 0
          · simp only [hw, if_true] at hs
            cases hs
            refine consistent_goto h ht hth rfl ?_ ?_ ?_ _ ?_ ?_
            · rfl
            · rfl
            · rfl
            · simpa [RunPc.running] using hrun
            · cases hcl : s.caller <;>
                simp_all [phaseOk, RunPc.after, RunPc.holds, RunPc.announced]
          · simp only [hw, if_false] at hs
            by_cases he : s.timer_expiry ≤ s.now
            · simp only [he, if_true] at hs
              cases hs
              exact consistent_congr h rfl rfl rfl rfl rfl rfl
            · simp [he] at hs
        | cons hd rest =>
          simp only [hq] at hs
          cases hd with
          | posted f =>
            simp only at hs
            cases hf : f.raises with
            | none =>
              simp only [hf] at hs
              cases hs
              exact consistent_congr h rfl rfl rfl rfl rfl rfl
            | some e =>
              simp only [hf] at hs
              cases hs
              refine consistent_goto h ht hth rfl ?_ ?_ ?_ _ ?_ ?_
              · rfl
              · rfl
              · rfl
              · simpa [RunPc.running] using hrun
              · cases hcl : s.caller <;>
                  simp_all [phaseOk, RunPc.after, RunPc.holds, RunPc.announced]
          | timer err =>
            simp only at hs
            cases hs
            exact consistent_congr h rfl rfl rfl rfl rfl rfl
    | catchReset e =>
      cases hs
      refine consistent_goto h ht hth rfl ?_ ?_ ?_ _ ?_ ?_
      · rfl
      · rfl
      · rfl
      · simp [RunPc.running]
      · cases hcl : s.caller <;>
          simp_all [phaseOk, RunPc.after, RunPc.holds, RunPc.announced]
    | rethrow e =>
      cases hs
      refine consistent_goto h ht hth rfl ?_ ?_ ?_ _ ?_ ?_
      · rfl
      · rfl
      · rfl
      · simpa [RunPc.running] using hrun
      · cases hcl : s.caller <;>
          simp_all [phaseOk, RunPc.after, RunPc.holds, RunPc.announced]
    | resetIsRunning =>
      cases hs
      refine consistent_goto h ht hth rfl ?_ ?_ ?_ _ ?_ ?_
      · rfl
      · rfl
      · rfl
      · simp [RunPc.running]
      · cases hcl : s.caller <;>
          simp_all [phaseOk, RunPc.after, RunPc.holds, RunPc.announced]
    | returnedEarly => simp [RunPc.finished] at hfin
    | returned => simp [RunPc.finished] at hfin
    | threw e => simp at hs

theorem run_raise_preserves {s s' : State} (h : Consistent s) {i e : Nat}
    (hs : run_raise s i e = some s') : Consistent s' := by
  unfold run_raise at hs
  cases ht : s.threads[i]? with
  | none => simp [ht] at hs
  | some t =>
    obtain ⟨pc, jd⟩ := t
    simp only [ht] at hs
    cases pc <;> simp only [reduceCtorEq] at hs
    all_goals
      obtain ⟨hth, hj, hc, hrun, hph⟩ := stepper_facts h ht (by simp [RunPc.finished])
      simp only at hj hrun hph
      subst hj
      cases hs
      refine consistent_goto h ht hth rfl ?_ ?_ ?_ _ ?_ ?_
      · rfl
      · rfl
      · rfl
      · simpa [RunPc.running] using hrun
      · cases hcl : s.caller <;>
          simp_all [phaseOk, RunPc.after, RunPc.holds, RunPc.announced]

/-- The caller moves on without touching the thread table or the handle. -/
theorem consistent_caller {s s' : State} (h : Consistent s)
    (e1 : s'.thread_ = s.thread_) (e2 : s'.threads = s.threads)
    (e4 : s'.isRunning_ = s.isRunning_)
    (hph : phaseOk s'.caller s'.waiterWasNotified_ s'.waitMutex_ (cur s) = true) :
    Consistent s' := by
  have hc : cur s' = cur s := by simp [cur, e1, e2]
  constructor
  · rw [e1, e2]; exact h.others
  · rw [e2]; exact h.fin
  · rw [e1, e2]; exact h.valid
  · rw [e4, hc]; exact h.running
  · rw [hc]; exact hph

/-- Joining the finished current thread. -/
theorem consistent_join {s : State} (h : Consistent s) {i : Nat} (hth : s.thread_ = some i)
    (hf : finished s i = true) (c : CallerPc)
    (hc : c = .startResetThread ∨ c = .stopResetThread)
    (hm : s.waitMutex_ = false) :
    Consistent { join s i with caller := c } := by
  have hlen := h.valid i hth
  obtain ⟨t, ht⟩ : ∃ t, s.threads[i]? = some t := ⟨s.threads[i], by simp [hlen]⟩
  have hfin : t.pc.finished = true := by
    simp [finished, ht] at hf
    rcases hf with hf | hf <;> simp [hf, RunPc.finished]
  have hcur : cur { join s i with caller := c } = some { t with joined := true } := by
    simp [cur, join, hth, ht, List.getElem?_modify]
  have hrun := h.running
  rw [cur_of hth ht] at hrun
  constructor
  · intro j u hu hne
    simp only [join, List.getElem?_modify] at hu hne
    cases hj : s.threads[j]? with
    | none => simp [hj] at hu
    | some v =>
      have hij : i ≠ j := by rintro rfl; exact hne hth
      simp [hj, hij] at hu
      subst hu
      exact h.others j v hj hne
  · intro j u hu hjo
    simp only [join, List.getElem?_modify] at hu
    cases hj : s.threads[j]? with
    | none => simp [hj] at hu
    | some v =>
      by_cases hij : i = j
      · subst hij
        rw [ht] at hj; cases hj
        simp [ht] at hu
        subst hu
        exact hfin
      · simp [hj, hij] at hu
        subst hu
        exact h.fin j v hj hjo
  · intro k hk
    simp only [join, List.length_modify] at hk ⊢
    exact h.valid k hk
  · rw [hcur]; simpa [join] using hrun
  · rw [hcur]; rcases hc with rfl | rfl <;> simp [phaseOk, join, hm]

/-- Dropping the handle of a joined thread. -/
theorem consistent_reset {s s' : State} (h : Consistent s)
    (hj : ∀ t, cur s = some t → t.joined = true)
    (e1 : s'.thread_ = none) (e2 : s'.threads = s.threads)
    (e4 : s'.isRunning_ = s.isRunning_)
    (hph : phaseOk s'.caller s'.waiterWasNotified_ s'.waitMutex_ none = true) :
    Consistent s' := by
  have hc : cur s' = none := by simp [cur, e1]
  constructor
  · intro j u hu _
    rw [e2] at hu
    by_cases hne : s.thread_ = some j
    · exact hj u (by simp [cur, hne, hu])
    · exact h.others j u hu hne
  · rw [e2]; exact h.fin
  · simp [e1]
  · rw [e4, hc, h.running]
    cases hcs : cur s with
    | none => rfl
    | some t =>
      have h1 := hj t hcs
      obtain ⟨i, hi⟩ : ∃ i, s.thread_ = some i := by
        cases hth : s.thread_ with
        | none => simp [cur, hth] at hcs
        | some i => exact ⟨i, rfl⟩
      have h2 := h.fin i t (by simpa [cur, hi] using hcs) h1
      cases hp : t.pc <;> simp_all [RunPc.finished, RunPc.running]
  · rw [hc]; exact hph

/-- Spawning a worker when no handle is held. -/
theorem consistent_spawn {s : State} (h : Consistent s) (hc : s.caller = .startSpawn) :
    Consistent { s with thread_ := some s.threads.length,
                        threads := s.threads ++ [{ pc := .lockWaitMutex, joined := false }],
                        caller := .startJoinable } := by
  have hph := h.phase
  rw [hc] at hph
  have hnone : s.thread_ = none := by
    cases hcs : cur s with
    | some t => simp [hcs, phaseOk] at hph
    | none =>
      cases hth : s.thread_ with
      | none => rfl
      | some i =>
        have := h.valid i hth
        simp [cur, hth] at hcs
        omega
  have hcn : cur s = none := by simp [cur, hnone]
  rw [hcn] at hph
  have hrun := h.running
  rw [hcn] at hrun
  constructor
  · intro j u hu hne
    simp only [Option.some.injEq, ne_eq] at hne
    simp only [List.getElem?_append] at hu
    by_cases hlt : j < s.threads.length
    · simp only [hlt, if_true] at hu
      exact h.others j u hu (by simp [hnone])
    · simp only [hlt, if_false] at hu
      have : j - s.threads.length ≠ 0 := by omega
      cases hk : j - s.threads.length with
      | zero => exact absurd hk this
      | succ k => simp [hk] at hu
  · intro j u hu hjo
    simp only [List.getElem?_append] at hu
    by_cases hlt : j < s.threads.length
    · simp only [hlt, if_true] at hu
      exact h.fin j u hu hjo
    · simp only [hlt, if_false] at hu
      cases hk : j - s.threads.length with
      | zero => simp [hk] at hu; subst hu; simp at hjo
      | succ k => simp [hk] at hu
  · intro k hk
    simp only [Option.some.injEq] at hk
    simp [← hk]
  · simp [cur, hrun, RunPc.running]
  · simpa [cur, phaseOk] using hph

/-- What the phase table says when a handle is held. -/
theorem cur_some_of_thread {s : State} (h : Consistent s) {i : Nat} (hth : s.thread_ = some i) :
    ∃ t, s.threads[i]? = some t ∧ cur s = some t := by
  have hlen := h.valid i hth
  exact ⟨s.threads[i], by simp [hlen], by simp [cur, hth, hlen]⟩

theorem cur_none_of_thread {s : State} (hth : s.thread_ = none) : cur s = none := by
  simp [cur, hth]

theorem start_preserves {s s' : State} (h : Consistent s) (hs : start s = some s') :
    Consistent s' := by
  have hph := h.phase
  unfold start at hs
  cases hc : s.caller <;> simp only [hc] at hs hph
  case startLock =>
    by_cases hm : s.startMutex_ = true
    · simp [hm] at hs
    · simp only [hm] at hs
      cases hs
      refine consistent_caller h (by simp [*]) (by simp [*]) (by simp [*]) ?_
      cases hcs : cur s <;> simp_all [phaseOk]
  case startCheckRunning =>
    by_cases hr : s.isRunning_ = true
    · simp only [hr, if_true] at hs
      cases hs
      refine consistent_caller h (by simp [*]) (by simp [*]) (by simp [*]) ?_
      cases hcs : cur s <;> simp_all [phaseOk]
    · simp only [hr] at hs
      cases hs
      refine consistent_caller h (by simp [*]) (by simp [*]) (by simp [*]) ?_
      cases hcs : cur s <;> simp_all [phaseOk]
  case startCheckThread =>
    cases hth : s.thread_ with
    | none =>
      simp only [hth] at hs
      cases hs
      refine consistent_caller h (by simp [*]) (by simp [*]) (by simp [*]) ?_
      simp_all [phaseOk, cur_none_of_thread hth]
    | some i =>
      simp only [hth] at hs
      cases hs
      refine consistent_caller h (by simp [*]) (by simp [*]) (by simp [*]) ?_
      cases hcs : cur s <;> simp_all [phaseOk]
  case startServiceStop =>
    cases hs
    refine consistent_caller h (by simp [*]) (by simp [*]) (by simp [*]) ?_
    cases hcs : cur s <;> simp_all [phaseOk]
  case startJoin =>
    cases hth : s.thread_ with
    | none => simp [hth] at hs
    | some i =>
      simp only [hth] at hs
      by_cases hf : finished s i = true
      · simp only [hf, if_true] at hs
        cases hs
        refine consistent_join h hth hf _ (Or.inl rfl) ?_
        cases hcs : cur s <;> simp_all [phaseOk]
      · simp [hf] at hs
  case startResetThread =>
    cases hs
    refine consistent_reset h ?_ (by simp [*]) (by simp [*]) (by simp [*]) ?_
    · intro t ht
      simp_all [phaseOk]
    · cases hcs : cur s <;> simp_all [phaseOk]
  case startLockWait =>
    by_cases hm : s.waitMutex_ = true
    · simp [hm] at hs
    · simp only [hm] at hs
      cases hs
      refine consistent_caller h (by simp [*]) (by simp [*]) (by simp [*]) ?_
      cases hcs : cur s <;> simp_all [phaseOk]
  case startSpawn =>
    cases hs
    exact consistent_spawn h hc
  case startJoinable =>
    cases hth : s.thread_ with
    | none => simp [hth] at hs
    | some i =>
      obtain ⟨t, ht, hcs⟩ := cur_some_of_thread h hth
      have hjn : joinable s i = true := by
        simp_all [phaseOk, joinable]
      simp only [hth, hjn, if_true] at hs
      cases hs
      refine consistent_caller h (by simp [*]) (by simp [*]) (by simp [*]) ?_
      simp_all [phaseOk]
  case startClearNotified =>
    cases hs
    refine consistent_caller h (by simp [*]) (by simp [*]) (by simp [*]) ?_
    cases hcs : cur s <;> simp_all [phaseOk]
  case startWait =>
    by_cases hn : s.waiterWasNotified_ = true
    · simp only [hn, if_true] at hs
      cases hs
      refine consistent_caller h (by simp [*]) (by simp [*]) (by simp [*]) ?_
      cases hcs : cur s <;> simp_all [phaseOk]
    · simp only [hn] at hs
      cases hs
      refine consistent_caller h (by simp [*]) (by simp [*]) (by simp [*]) ?_
      cases hcs : cur s <;>
        simp_all [phaseOk, RunPc.holds, RunPc.announced, RunPc.after]
  case startWaiting =>
    by_cases hw : (s.waitStart_ && !s.waitMutex_) = true
    · simp only [hw, if_true] at hs
      cases hs
      refine consistent_caller h (by simp [*]) (by simp [*]) (by simp [*]) ?_
      cases hcs : cur s with
      | none => simp_all [phaseOk]
      | some t =>
        obtain ⟨pc, jd⟩ := t
        cases pc <;> simp_all [phaseOk, RunPc.holds, RunPc.announced, RunPc.after]
    · simp [hw] at hs
  case startReturn =>
    cases hs
    refine consistent_caller h (by simp [*]) (by simp [*]) (by simp [*]) ?_
    cases hcs : cur s <;> simp_all [phaseOk]
  all_goals simp at hs

theorem stop_preserves {s s' : State} (h : Consistent s) (hs : stop s = some s') :
    Consistent s' := by
  have hph := h.phase
  unfold stop at hs
  cases hc : s.caller <;> simp only [hc] at hs hph
  case stopLock =>
    by_cases hm : s.startMutex_ = true
    · simp [hm] at hs
    · simp only [hm] at hs
      cases hs
      refine consistent_caller h (by simp [*]) (by simp [*]) (by simp [*]) ?_
      cases hcs : cur s <;> simp_all [phaseOk]
  case stopServiceStop =>
    cases hs
    refine consistent_caller h (by simp [*]) (by simp [*]) (by simp [*]) ?_
    cases hcs : cur s <;> simp_all [phaseOk]
  case stopCheckThread =>
    cases hth : s.thread_ with
    | none =>
      simp only [hth] at hs
      cases hs
      refine consistent_caller h (by simp [*]) (by simp [*]) (by simp [*]) ?_
      simp_all [phaseOk, cur_none_of_thread hth]
    | some i =>
      obtain ⟨t, ht, hcs⟩ := cur_some_of_thread h hth
      simp only [hth] at hs
      by_cases hjn : joinable s i = true
      · simp only [hjn, if_true] at hs
        cases hs
        refine consistent_caller h (by simp [*]) (by simp [*]) (by simp [*]) ?_
        simp_all [phaseOk]
      · simp only [hjn] at hs
        cases hs
        refine consistent_caller h (by simp [*]) (by simp [*]) (by simp [*]) ?_
        simp_all [phaseOk, joinable]
  case stopJoin =>
    cases hth : s.thread_ with
    | none => simp [hth] at hs
    | some i =>
      simp only [hth] at hs
      by_cases hf : finished s i = true
      · simp only [hf, if_true] at hs
        cases hs
        refine consistent_join h hth hf _ (Or.inr rfl) ?_
        cases hcs : cur s <;> simp_all [phaseOk]
      · simp [hf] at hs
  case stopResetThread =>
    cases hs
    refine consistent_reset h ?_ (by simp [*]) (by simp [*]) (by simp [*]) ?_
    · intro t ht
      simp_all [phaseOk]
    · cases hcs : cur s <;> simp_all [phaseOk]
  all_goals simp at hs

theorem call_preserves {s s' : State} (h : Consistent s) (hs : call s = some s') :
    Consistent s' := by
  have hph := h.phase
  have hval := h.valid
  unfold call at hs
  cases hc : s.caller with
  | idle =>
    simp only [hc] at hs
    cases hp : s.program with
    | nil => simp [hp] at hs
    | cons op rest =>
      cases op <;> simp only [hp] at hs <;> cases hs <;>
        refine consistent_caller h rfl rfl rfl ?_ <;>
        cases hcs : cur s <;> simp_all [phaseOk]
  | postCall f =>
    simp only [hc] at hs
    cases hs
    refine consistent_caller h rfl rfl rfl ?_
    cases hcs : cur s <;> simp_all [phaseOk, post]
  | startThrew => simp [hc] at hs
  | stopLock | stopServiceStop | stopCheckThread | stopJoin | stopResetThread =>
    simp only [hc] at hs
    exact stop_preserves h hs
  | _ =>
    simp only [hc] at hs
    exact start_preserves h hs

theorem step_preserves {s s' : State} (h : Consistent s) {a : Action}
    (hs : step a s = some s') : Consistent s' := by
  cases a with
  | caller => exact call_preserves h hs
  | worker i => exact run_preserves h hs
  | raise i e => exact run_raise_preserves h hs
  | tick =>
    simp only [step, Option.some.injEq] at hs
    subst hs
    exact consistent_congr h rfl rfl rfl rfl rfl rfl
  | spurious =>
    simp only [step] at hs
    split at hs
    · simp only [Option.some.injEq] at hs
      subst hs
      exact consistent_congr h rfl rfl rfl rfl rfl rfl
    · simp at hs

theorem exec_preserves (P : State → Prop)
    (hstep : ∀ s s' a, P s → step a s = some s' → P s') :
    ∀ (tr : List Action) (s s' : State), P s → exec tr s = some s' → P s' := by
  intro tr
  induction tr with
  | nil =>
    intro s s' h hs
    simp only [exec, Option.some.injEq] at hs
    subst hs
    exact h
  | cons a as ih =>
    intro s s' h hs
    simp only [exec] at hs
    cases h1 : step a s with
    | none => simp [h1] at hs
    | some s1 =>
      simp only [h1, Option.some_bind] at hs
      exact ih s1 s' (hstep s s1 a h h1) hs

theorem exec_consistent {s s' : State} (h : Consistent s) {tr : List Action}
    (hs : exec tr s = some s') : Consistent s' :=
  exec_preserves Consistent (fun _ _ _ h hs => step_preserves h hs) tr s s' h hs

theorem reachable_consistent {n : Bool} {p : List Op} {tr : List Action} {s : State}
    (hs : exec tr (AsyncService n p) = some s) : Consistent s :=
  exec_consistent (inv_init n p) hs

theorem exec_append (t1 t2 : List Action) (s : State) :
    exec (t1 ++ t2) s = (exec t1 s).bind (exec t2) := by
  induction t1 generalizing s with
  | nil => simp [exec]
  | cons a as ih =>
    simp only [List.cons_append, exec]
    cases step a s with
    | none => simp
    | some s1 => simp [ih]

/-- C4: `start()` called while `isRunning_` is true returns at l.95 and leaves
the whole state as it found it (no thread spawned, event context not stopped,
`thread_`, `isRunning_`, `waiterWasNotified_` unchanged, `startMutex_` released
again); only the call is consumed. -/
theorem start_noop_when_running (s : State) (rest : List Op)
    (hc : s.caller = .idle) (hp : s.program = .start :: rest)
    (hm : s.startMutex_ = false) (hr : s.isRunning_ = true) :
    exec [.caller, .caller, .caller] s = some { s with program := rest } ∧
      ∀ s1 : State, s1.caller = .startCheckRunning → s1.isRunning_ = true →
        step .caller s1 = some { s1 with startMutex_ := false, caller := .idle } := by
  constructor
  · obtain ⟨a1, a2, a3, a4, a5, a6, a7, a8, a9, a10, a11, a12, a13, a14, a15, a16⟩ := s
    simp only at hc hp hm hr
    subst hc hp hm hr
    rfl
  · intro s1 h1 h2
    simp [step, call, start, h1, h2]

theorem pcOf_goto {s : State} {i : Nat} {t : Thread} (ht : s.threads[i]? = some t)
    (pc : RunPc) : pcOf (goto s i pc) i = some pc := by
  simp [pcOf, goto, List.getElem?_modify, ht]

/-- C5: in every state an interleaving can reach, a failure `e` raised inside the
`try` block of run() (by a library call, or by a handler that `service_.run()`
invokes) enters the `catch` block; from there the thread resets `isRunning_`
(l.77), rethrows the same `e` (l.78) and is then done for good: `isRunning_` is
false once `e` has left run(), and the thread takes no further step, so nothing
is retried. -/
theorem run_rethrows_and_resets (n : Bool) (p : List Op) (tr : List Action) (s : State)
    (hs : exec tr (AsyncService n p) = some s) (i e : Nat) (pc : RunPc)
    (hpc : pcOf s i = some pc) :
    (pc.inTry = true → ∃ s1, step (.raise i e) s = some s1 ∧ pcOf s1 i = some (.catchReset e)) ∧
    (pc = .serviceRun → s.stopped = false →
      ∀ f rest, s.queue = .posted f :: rest → f.raises = some e →
        ∃ s1, step (.worker i) s = some s1 ∧ pcOf s1 i = some (.catchReset e)) ∧
    (pc = .catchReset e →
      ∃ s1, step (.worker i) s = some s1 ∧ pcOf s1 i = some (.rethrow e) ∧
        s1.isRunning_ = false) ∧
    (pc = .rethrow e →
      s.isRunning_ = false ∧
      ∃ s1, step (.worker i) s = some s1 ∧ pcOf s1 i = some (.threw e) ∧
        s1.isRunning_ = false) ∧
    (pc = .threw e →
      s.isRunning_ = false ∧ step (.worker i) s = none ∧
        ∀ e', step (.raise i e') s = none) := by
  have hcons := reachable_consistent hs
  obtain ⟨t, ht, rfl⟩ : ∃ t, s.threads[i]? = some t ∧ t.pc = pc := by
    simpa [pcOf] using hpc
  have hrun : t.pc.finished = false → s.isRunning_ = t.pc.running := fun hf =>
    (stepper_facts hcons ht hf).2.2.2.1
  refine ⟨?_, ?_, ?_, ?_, ?_⟩
  · intro h
    refine ⟨goto s i (.catchReset e), ?_, pcOf_goto ht _⟩
    cases hp : t.pc <;> simp [hp, RunPc.inTry] at h <;> simp [step, run_raise, ht, hp]
  · intro hp hst f rest hq hf
    refine ⟨goto { s with queue := rest, executed := s.executed ++ [f] } i (.catchReset e), ?_,
      pcOf_goto ht _⟩
    simp [step, run, ht, hp, hst, hq, hf]
  · intro hp
    refine ⟨goto { s with isRunning_ := false } i (.rethrow e), ?_, pcOf_goto ht _, rfl⟩
    simp [step, run, ht, hp]
  · intro hp
    have h0 : s.isRunning_ = false := by
      rw [hrun (by simp [hp, RunPc.finished])]; simp [hp, RunPc.running]
    refine ⟨h0, goto s i (.threw e), ?_, pcOf_goto ht _, h0⟩
    simp [step, run, ht, hp]
  · intro hp
    have h0 : s.isRunning_ = false := by
      rw [hrun (by simp [hp, RunPc.finished])]; simp [hp, RunPc.running]
    refine ⟨h0, ?_, ?_⟩
    · simp [step, run, ht, hp]
    · intro e'
      simp [step, run_raise, ht, hp]

/-- C10: in every state an interleaving of any program can reach, if no thread is
executing run() then `is_running()` is false; `is_running()` is false right after
stop() returns and on a freshly constructed engine; and a run() that finds
`isRunning_` already true returns at l.57, releasing `waitMutex_` and changing
nothing else. -/
theorem not_running_without_worker (n : Bool) (p : List Op) (tr : List Action) (s : State)
    (hs : exec tr (AsyncService n p) = some s) :
    ((∀ (j : Nat) (t : Thread), s.threads[j]? = some t → t.pc.exited = true) →
      is_running s = false) ∧
    (s.caller = .stopResetThread →
      ∃ s1, step .caller s = some s1 ∧ s1.caller = .idle ∧ is_running s1 = false) ∧
    is_running (AsyncService n p) = false ∧
    (∀ (s0 : State) (i : Nat), pcOf s0 i = some .checkIsRunning → s0.isRunning_ = true →
      step (.worker i) s0 = some (goto { s0 with waitMutex_ := false } i .returnedEarly)) := by
  have h := reachable_consistent hs
  refine ⟨?_, ?_, rfl, ?_⟩
  · intro hall
    have hrun := h.running
    cases hc : cur s with
    | none => simpa [is_running, hc] using hrun
    | some t =>
      obtain ⟨i, hi⟩ : ∃ i, s.threads[i]? = some t := by
        cases hth : s.thread_ with
        | none => simp [cur, hth] at hc
        | some i => exact ⟨i, by simpa [cur, hth] using hc⟩
      have he := hall i t hi
      rw [hc] at hrun
      simp only [is_running, hrun]
      cases hp : t.pc <;> simp_all [RunPc.exited, RunPc.running]
  · intro hc
    have h1 : step .caller s =
        some { s with thread_ := none, startMutex_ := false, caller := .idle } := by
      simp [step, call, stop, hc]
    have h2 := step_preserves h h1
    refine ⟨_, h1, rfl, ?_⟩
    have hrun := h2.running
    simpa [is_running, cur] using hrun
  · intro s0 i hpc hr
    obtain ⟨t, ht, htp⟩ : ∃ t, s0.threads[i]? = some t ∧ t.pc = .checkIsRunning := by
      simpa [pcOf] using hpc
    simp [step, run, ht, htp, hr]

/-- C2, amended: whenever the caller is about to return from start() after
spawning a worker (l.117), `waiterWasNotified_` is true and the worker is past the
locked scope of run(), so it has executed l.59 and l.60; `is_running()` at the
moment start() returns is true exactly when the worker has not yet reset
`isRunning_` again at l.77 or l.81. -/
theorem start_returns_after_announce (n : Bool) (p : List Op) (tr : List Action) (s : State)
    (hs : exec tr (AsyncService n p) = some s) (hc : s.caller = .startReturn) :
    s.waiterWasNotified_ = true ∧
    ∃ pc s1, (s.thread_.bind (pcOf s)) = some pc ∧ pc.after = true ∧
      step .caller s = some s1 ∧ s1.caller = .idle ∧ s1.threads = s.threads ∧
      s1.thread_ = s.thread_ ∧ is_running s1 = pc.running := by
  have h := reachable_consistent hs
  have hph := h.phase
  have hrun := h.running
  rw [hc] at hph
  cases hcs : cur s with
  | none => simp [hcs, phaseOk] at hph
  | some t =>
    rw [hcs] at hph hrun
    simp only [phaseOk, Bool.and_eq_true] at hph
    obtain ⟨⟨_, hn⟩, ha⟩ := hph
    refine ⟨hn, t.pc, { s with waitMutex_ := false, startMutex_ := false, caller := .idle },
      ?_, ha, ?_, rfl, rfl, rfl, ?_⟩
    · cases hth : s.thread_ with
      | none => simp [cur, hth] at hcs
      | some i =>
        simp only [cur, hth] at hcs
        simp [pcOf, hcs]
    · simp [step, call, start, hc]
    · simpa [is_running] using hrun

/-- C2 as stated fails: `early_exit_trace` is an interleaving of start() with the
worker it spawned; at its end start() returns and `is_running()` is false. -/
theorem start_returns_not_running :
    exec early_exit_trace (AsyncService false early_exit_program) = some engine_left ∧
      engine_left.caller = .startReturn ∧
      ∃ s1, step .caller engine_left = some s1 ∧ s1.caller = .idle ∧ s1.program = [] ∧
        is_running s1 = false :=
  ⟨rfl, rfl, _, rfl, rfl, rfl, rfl⟩

theorem oneUnjoined_of_consistent {s : State} (h : Consistent s) : OneUnjoined s := by
  intro j k tj tk hj hk h1 h2
  have e1 : s.thread_ = some j := by
    by_contra hne
    have := h.others j tj hj hne
    simp [this] at h1
  have e2 : s.thread_ = some k := by
    by_contra hne
    have := h.others k tk hk hne
    simp [this] at h2
  rw [e1] at e2
  exact Option.some.inj e2

/-- C7: start() entered with `isRunning_` false while the handle of a worker that
has left its loop is still held.  The caller's next statements are, in this order:
`service_.stop()`, joining the old worker, dropping its handle, taking
`waitMutex_`, and only then spawning the new worker; and in every state any
interleaving reaches from here at most one thread is unjoined. -/
theorem start_cleans_up_before_spawn (s : State) (i : Nat)
    (hc : s.caller = .startCheckRunning) (hr : s.isRunning_ = false)
    (hth : s.thread_ = some i) (hi : s.threads[i]? = some ⟨.returned, false⟩)
    (ho : ∀ (j : Nat) (u : Thread), s.threads[j]? = some u → j ≠ i →
      u.joined = true ∧ u.pc.finished = true)
    (hm : s.waitMutex_ = false) :
    exec (List.replicate 3 .caller) s = some { s with stopped := true, caller := .startJoin } ∧
    exec (List.replicate 4 .caller) s =
      some { join s i with stopped := true, caller := .startResetThread } ∧
    exec (List.replicate 5 .caller) s =
      some { join s i with stopped := true, thread_ := none, caller := .startLockWait } ∧
    exec (List.replicate 7 .caller) s =
      some { join s i with stopped := true, thread_ := some s.threads.length,
                           threads := (join s i).threads ++ [spawned],
                           waitMutex_ := true, caller := .startJoinable } ∧
    (∀ (j : Nat) (u : Thread), (join s i).threads[j]? = some u → u.joined = true) ∧
    ∀ (tr : List Action) (s' : State), exec tr s = some s' → OneUnjoined s' := by
  have hcons : Consistent s := by
    constructor
    · intro j t hj hne
      exact (ho j t hj (by rintro rfl; exact hne hth)).1
    · intro j t hj hjo
      by_cases hji : j = i
      · subst hji
        rw [hi] at hj
        cases hj
        rfl
      · exact (ho j t hj hji).2
    · intro k hk
      rw [hth] at hk
      cases hk
      by_contra hlt
      simp [List.getElem?_eq_none (Nat.le_of_not_lt hlt)] at hi
    · simp [cur, hth, hi, hr, RunPc.running]
    · simp [cur, hth, hi, hc, hm, phaseOk, RunPc.after]
  have hf : finished s i = true := by simp [finished, hi]
  have e1 : step .caller s = some { s with caller := .startCheckThread } := by
    simp [step, call, start, hc, hr]
  have e2 : step .caller { s with caller := .startCheckThread } =
      some { s with caller := .startServiceStop } := by
    simp [step, call, start, hth]
  have e3 : step .caller { s with caller := .startServiceStop } =
      some { s with stopped := true, caller := .startJoin } := by
    simp [step, call, start]
  have e4 : step .caller { s with stopped := true, caller := .startJoin } =
      some { join s i with stopped := true, caller := .startResetThread } := by
    simp [step, call, start, hth, finished, hi, join]
  have e5 : step .caller { join s i with stopped := true, caller := .startResetThread } =
      some { join s i with stopped := true, thread_ := none, caller := .startLockWait } := by
    simp [step, call, start]
  have e6 : step .caller
      { join s i with stopped := true, thread_ := none, caller := .startLockWait } =
      some { join s i with stopped := true, thread_ := none, waitMutex_ := true,
                           caller := .startSpawn } := by
    simp [step, call, start, join, hm]
  have e7 : step .caller
      { join s i with stopped := true, thread_ := none, waitMutex_ := true,
                      caller := .startSpawn } =
      some { join s i with stopped := true, thread_ := some s.threads.length,
                           threads := (join s i).threads ++ [spawned],
                           waitMutex_ := true, caller := .startJoinable } := by
    simp [step, call, start, join, spawned]
  refine ⟨?_, ?_, ?_, ?_, ?_, ?_⟩
  · simp [List.replicate, exec, e1, e2, e3]
  · simp [List.replicate, exec, e1, e2, e3, e4]
  · simp [List.replicate, exec, e1, e2, e3, e4, e5]
  · simp [List.replicate, exec, e1, e2, e3, e4, e5, e6, e7]
  · intro j u hu
    simp only [join, List.getElem?_modify] at hu
    cases hj : s.threads[j]? with
    | none => simp [hj] at hu
    | some v =>
      by_cases hij : i = j
      · simp [hj, hij] at hu
        rw [← hu]
      · simp [hj, hij] at hu
        rw [← hu]
        exact (ho j v hj (Ne.symm hij)).1
  · intro tr s' hs'
    exact oneUnjoined_of_consistent (exec_consistent hcons hs')

theorem cur_goto {s : State} {i : Nat} {t : Thread} (hth : s.thread_ = some i)
    (ht : s.threads[i]? = some t) (pc : RunPc) :
    cur (goto s i pc) = some { t with pc := pc } := by
  simp [cur, goto, hth, ht, List.getElem?_modify]

theorem stopRequested_goto {s s0 : State} (hq : StopRequested s) {i : Nat} {t : Thread}
    (hth : s.thread_ = some i) (ht : s.threads[i]? = some t)
    (e1 : s0.thread_ = s.thread_) (e2 : s0.threads = s.threads) (e3 : s0.caller = s.caller)
    (pc : RunPc)
    (hstep : (s.stopped = true ∨ t.pc.noExit = true) → (s0.stopped = true ∨ pc.noExit = true)) :
    StopRequested (goto s0 i pc) := by
  intro hcl
  have hcl' : s.caller = .stopCheckThread ∨ s.caller = .stopJoin ∨
      s.caller = .stopResetThread := by simpa [goto, e3] using hcl
  have h1 : s.stopped = true ∨ t.pc.noExit = true := by
    rcases hq hcl' with h | ⟨u, hu, hn⟩
    · exact Or.inl h
    · rw [cur_of hth ht] at hu
      cases hu
      exact Or.inr hn
  rcases hstep h1 with h | h
  · exact Or.inl (by simpa [goto] using h)
  · exact Or.inr ⟨_, cur_goto (by rw [e1]; exact hth) (by rw [e2]; exact ht) pc, h⟩

theorem stopRequested_congr {s s' : State} (hq : StopRequested s)
    (e1 : s'.thread_ = s.thread_) (e2 : s'.threads = s.threads) (e3 : s'.caller = s.caller)
    (e4 : s'.stopped = s.stopped) : StopRequested s' := by
  have hc : cur s' = cur s := by simp [cur, e1, e2]
  unfold StopRequested
  rw [e3, e4, hc]
  exact hq

theorem stopRequested_run {s s' : State} (h : Consistent s) (hq : StopRequested s) {i : Nat}
    (hs : run s i = some s') : StopRequested s' := by
  unfold run at hs
  cases ht : s.threads[i]? with
  | none => simp [ht] at hs
  | some t =>
    obtain ⟨pc, jd⟩ := t
    simp only [ht] at hs
    by_cases hfin : pc.finished = true
    · cases pc <;> simp [RunPc.finished] at hfin <;> simp at hs
    have hth := (stepper_facts h ht (by simpa using hfin)).1
    cases pc with
    | lockWaitMutex =>
      by_cases hm : s.waitMutex_ = true
      · simp [hm] at hs
      · simp only [hm] at hs
        cases hs
        refine stopRequested_goto hq hth ht ?_ ?_ ?_ _ ?_
        · rfl
        · rfl
        · rfl
        · simp [RunPc.noExit]
    | checkIsRunning =>
      by_cases hr : s.isRunning_ = true
      · simp only [hr, if_true] at hs
        cases hs
        refine stopRequested_goto hq hth ht ?_ ?_ ?_ _ ?_
        · rfl
        · rfl
        · rfl
        · simp [RunPc.noExit]
      · simp only [hr] at hs
        cases hs
        refine stopRequested_goto hq hth ht ?_ ?_ ?_ _ ?_
        · rfl
        · rfl
        · rfl
        · simp [RunPc.noExit]
    | setIsRunning =>
      cases hs
      refine stopRequested_goto hq hth ht ?_ ?_ ?_ _ ?_
      · rfl
      · rfl
      · rfl
      · simp [RunPc.noExit]
    | setWaiterWasNotified =>
      cases hs
      refine stopRequested_goto hq hth ht ?_ ?_ ?_ _ ?_
      · rfl
      · rfl
      · rfl
      · simp [RunPc.noExit]
    | notifyOne =>
      cases hs
      refine stopRequested_goto hq hth ht ?_ ?_ ?_ _ ?_
      · rfl
      · rfl
      · rfl
      · simp [RunPc.noExit]
    | unlockWaitMutex =>
      cases hs
      refine stopRequested_goto hq hth ht ?_ ?_ ?_ _ ?_
      · rfl
      · rfl
      · rfl
      · simp [RunPc.noExit]
    | restart =>
      cases hs
      refine stopRequested_goto hq hth ht ?_ ?_ ?_ _ ?_
      · rfl
      · rfl
      · rfl
      · simp [RunPc.noExit]
    | timerCancel =>
      cases hs
      refine stopRequested_goto hq hth ht ?_ ?_ ?_ _ ?_
      · rfl
      · rfl
      · rfl
      · simp [RunPc.noExit, cancel]
    | timerCallback =>
      cases hs
      refine stopRequested_goto hq hth ht ?_ ?_ ?_ _ ?_
      · rfl
      · rfl
      · rfl
      · simp [RunPc.noExit, timer_callback, async_wait, expires_from_now, cancel]
    | serviceRun =>
      by_cases hst : s.stopped = true
      · simp only [hst, if_true] at hs
        cases hs
        refine stopRequested_goto hq hth ht ?_ ?_ ?_ _ ?_
        · rfl
        · rfl
        · rfl
        · simp [hst]
      · rw [if_neg hst] at hs
        cases hqu : s.queue with
        | nil =>
          simp only [hqu] at hs
          by_cases hw : s.timer_waits = 0
          · simp only [hw, if_true] at hs
            cases hs
            refine stopRequested_goto hq hth ht ?_ ?_ ?_ _ ?_
            · rfl
            · rfl
            · rfl
            · simp
          · simp only [hw, if_false] at hs
            by_cases he : s.timer_expiry ≤ s.now
            · simp only [he, if_true] at hs
              cases hs
              exact stopRequested_congr hq rfl rfl rfl rfl
            · simp [he] at hs
        | cons hd rest =>
          simp only [hqu] at hs
          cases hd with
          | posted f =>
            simp only at hs
            cases hf : f.raises with
            | none =>
              simp only [hf] at hs
              cases hs
              exact stopRequested_congr hq rfl rfl rfl rfl
            | some e =>
              simp only [hf] at hs
              cases hs
              refine stopRequested_goto hq hth ht ?_ ?_ ?_ _ ?_
              · rfl
              · rfl
              · rfl
              · simp [RunPc.noExit]
          | timer err =>
            simp only at hs
            cases hs
            exact stopRequested_congr hq rfl rfl rfl rfl
    | catchReset e =>
      cases hs
      refine stopRequested_goto hq hth ht ?_ ?_ ?_ _ ?_
      · rfl
      · rfl
      · rfl
      · simp [RunPc.noExit]
    | rethrow e =>
      cases hs
      refine stopRequested_goto hq hth ht ?_ ?_ ?_ _ ?_
      · rfl
      · rfl
      · rfl
      · simp [RunPc.noExit]
    | resetIsRunning =>
      cases hs
      refine stopRequested_goto hq hth ht ?_ ?_ ?_ _ ?_
      · rfl
      · rfl
      · rfl
      · simp [RunPc.noExit]
    | returnedEarly => simp [RunPc.finished] at hfin
    | returned => simp [RunPc.finished] at hfin
    | threw e => simp at hs

theorem stopRequested_raise {s s' : State} (h : Consistent s) (hq : StopRequested s)
    {i e : Nat} (hs : run_raise s i e = some s') : StopRequested s' := by
  unfold run_raise at hs
  cases ht : s.threads[i]? with
  | none => simp [ht] at hs
  | some t =>
    obtain ⟨pc, jd⟩ := t
    simp only [ht] at hs
    cases pc <;> simp only [reduceCtorEq] at hs
    all_goals
      have hth := (stepper_facts h ht (by simp [RunPc.finished])).1
      cases hs
      refine stopRequested_goto hq hth ht ?_ ?_ ?_ _ ?_
      · rfl
      · rfl
      · rfl
      · simp [RunPc.noExit]

theorem stopRequested_call {s s' : State} (hq : StopRequested s)
    (hs : call s = some s') : StopRequested s' := by
  unfold call at hs
  unfold StopRequested at hq ⊢
  cases hc : s.caller <;> simp only [hc] at hs hq
  case idle =>
    cases hp : s.program with
    | nil => simp [hp] at hs
    | cons op rest => cases op <;> simp only [hp] at hs <;> cases hs <;> simp
  case postCall f => cases hs; simp
  case startThrew => simp at hs
  case stopLock =>
    simp only [stop, hc] at hs
    split at hs
    · simp at hs
    · cases hs; simp
  case stopServiceStop =>
    simp only [stop, hc] at hs
    cases hs
    simp
  case stopCheckThread =>
    simp only [stop, hc] at hs
    have hq' := hq (by simp)
    split at hs
    · split at hs <;> cases hs <;> simpa [cur] using hq'
    · cases hs; simpa [cur] using hq'
  case stopJoin =>
    simp only [stop, hc] at hs
    have hq' := hq (by simp)
    cases hth : s.thread_ with
    | none => simp [hth] at hs
    | some i =>
      simp only [hth] at hs
      by_cases hf : finished s i = true
      · rw [if_pos hf] at hs
        cases hs
        intro _
        left
        rcases hq' with hst | ⟨t, ht, hn⟩
        · simpa [join] using hst
        · exfalso
          simp only [cur, hth] at ht
          simp only [finished, ht] at hf
          cases hp : t.pc <;> simp_all [RunPc.noExit]
      · simp [hf] at hs
  case stopResetThread =>
    simp only [stop, hc] at hs
    cases hs
    simp
  all_goals
    simp only [start, hc] at hs
    try split at hs
    all_goals try split at hs
    all_goals first
      | (cases hs; simp)
      | (simp at hs)

theorem stopRequested_step {s s' : State} (h : Consistent s) (hq : StopRequested s)
    {a : Action} (hs : step a s = some s') : StopRequested s' := by
  cases a with
  | caller => exact stopRequested_call hq hs
  | worker i => exact stopRequested_run h hq hs
  | raise i e => exact stopRequested_raise h hq hs
  | tick =>
    simp only [step, Option.some.injEq] at hs
    subst hs
    exact stopRequested_congr hq rfl rfl rfl rfl
  | spurious =>
    simp only [step] at hs
    split at hs
    · simp only [Option.some.injEq] at hs
      subst hs
      exact stopRequested_congr hq rfl rfl rfl rfl
    · simp at hs

theorem quiescent_consistent {s : State} (h : Quiescent s) : Consistent s := by
  obtain ⟨hc, -, hm, h⟩ := h
  rcases h with ⟨hth, hr, hall⟩ | ⟨i, pc, hth, hi, ha, hr, hall⟩
  · constructor
    · intro j t hj _
      exact (hall j t hj).1
    · intro j t hj _
      exact (hall j t hj).2
    · intro k hk
      rw [hth] at hk
      cases hk
    · simp [cur, hth, hr]
    · simp [cur, hth, hc, hm, phaseOk]
  · constructor
    · intro j t hj hne
      exact (hall j t hj (by rintro rfl; exact hne hth)).1
    · intro j t hj hjo
      by_cases hji : j = i
      · subst hji
        rw [hi] at hj
        cases hj
        cases hjo
      · exact (hall j t hj hji).2
    · intro k hk
      rw [hth] at hk
      cases hk
      by_contra hlt
      simp [List.getElem?_eq_none (Nat.le_of_not_lt hlt)] at hi
    · simp [cur, hth, hi, hr]
    · simp [cur, hth, hi, hc, hm, phaseOk, ha]

theorem quiescent_stopRequested {s : State} (h : Quiescent s) : StopRequested s := by
  intro hc
  rw [h.1] at hc
  simp at hc

theorem exec_stopRequested {s0 s : State} (h0 : Consistent s0 ∧ StopRequested s0)
    {tr : List Action} (hs : exec tr s0 = some s) : Consistent s ∧ StopRequested s := by
  refine exec_preserves (fun s => Consistent s ∧ StopRequested s) ?_ tr s0 s h0 hs
  intro s s' a h hs
  exact ⟨step_preserves h.1 hs, stopRequested_step h.1 h.2 hs⟩

/-- The last statement of stop() (l.132), and a second stop() after it. -/
theorem stop_returns_clean {s s1 : State} (hcons : Consistent s) (hq : StopRequested s)
    (rest : List Op) (hc : s.caller = .stopResetThread) (h1 : step .caller s = some s1)
    (hp : s1.program = .stop :: rest) :
    s1.caller = .idle ∧ s1.thread_ = none ∧
    (∀ (j : Nat) (t : Thread), s1.threads[j]? = some t →
      t.joined = true ∧ t.pc.finished = true) ∧
    exec (List.replicate 5 .caller) s1 = some { s1 with program := rest } := by
  have hcons1 := step_preserves hcons h1
  have e1 : s1 = { s with thread_ := none, startMutex_ := false, caller := .idle } := by
    simpa [step, call, stop, hc, eq_comm] using h1
  have hst : s.stopped = true := by
    rcases hq (by simp [hc]) with h | ⟨t, ht, hn⟩
    · exact h
    · exfalso
      have hph := hcons.phase
      rw [hc, ht] at hph
      simp only [phaseOk, Bool.and_eq_true] at hph
      obtain ⟨i, hi⟩ : ∃ i, s.threads[i]? = some t := by
        cases hth : s.thread_ with
        | none => simp [cur, hth] at ht
        | some i => exact ⟨i, by simpa [cur, hth] using ht⟩
      have := hcons.fin i t hi hph.2
      cases hpc : t.pc <;> simp_all [RunPc.noExit, RunPc.finished]
  subst e1
  simp only at hp
  refine ⟨rfl, rfl, ?_, ?_⟩
  · intro j t hj
    have hjo := hcons1.others j t hj (by simp)
    exact ⟨hjo, hcons1.fin j t hj hjo⟩
  · simp [List.replicate, exec, step, call, stop, hp, hst]

/-- A stop() that has no running worker to wait for runs through on its own. -/
theorem stop_completes {s0 : State} (h0 : Quiescent s0) (rest : List Op)
    (hp : s0.program = .stop :: rest)
    (hfin : ∀ i, s0.thread_ = some i → finished s0 i = true) :
    ∃ (k : Nat) (s s1 : State), k ≤ 5 ∧ exec (List.replicate k .caller) s0 = some s ∧
      s.caller = .stopResetThread ∧ step .caller s = some s1 ∧ s1.program = rest ∧
      s1.stopped = true := by
  obtain ⟨hc, hsm, -, h⟩ := h0
  rcases h with ⟨hth, -, -⟩ | ⟨i, pc, hth, hi, -, -, -⟩
  · refine ⟨4,
      { s0 with caller := .stopResetThread, program := rest, startMutex_ := true,
                stopped := true },
      _, by omega, ?_, rfl, rfl, rfl, rfl⟩
    simp [List.replicate, exec, step, call, stop, hc, hp, hsm, hth]
  · have hf := hfin i hth
    refine ⟨5,
      { join s0 i with caller := .stopResetThread, program := rest, startMutex_ := true,
                       stopped := true },
      _, by omega, ?_, rfl, rfl, rfl, rfl⟩
    have hj : joinable s0 i = true := by simp [joinable, hi]
    simp only [finished, hi] at hf
    simp [List.replicate, exec, step, call, stop, hc, hp, hsm, hth, joinable, finished, hi,
      join, hf]

/-- C1: take any engine between two calls of its owner (`Quiescent`: never
started, started and running, started and already out of its loop, or already
stopped).  In every interleaving from there, when stop() executes its last
statement (l.132) and returns, `thread_` is empty and every thread of the engine
has finished run() and been joined, and a second stop() called next runs to
completion without waiting and leaves the state exactly as the first call left
it (only the call is consumed).  Moreover, when there is no running worker to
wait for (no handle, or the worker has already left run()), two stop() calls in
a row do run to completion, by the caller's steps alone, with that result. -/
theorem stop_idempotent (s0 : State) (h0 : Quiescent s0) :
    (∀ (tr : List Action) (s s1 : State) (rest : List Op),
      exec tr s0 = some s → s.caller = .stopResetThread → step .caller s = some s1 →
      s1.program = .stop :: rest →
        s1.caller = .idle ∧ s1.thread_ = none ∧
        (∀ (j : Nat) (t : Thread), s1.threads[j]? = some t →
          t.joined = true ∧ t.pc.finished = true) ∧
        exec (List.replicate 5 .caller) s1 = some { s1 with program := rest }) ∧
    (∀ rest : List Op, s0.program = .stop :: .stop :: rest →
      (∀ i, s0.thread_ = some i → finished s0 i = true) →
      ∃ (k : Nat) (s1 : State), k ≤ 6 ∧ exec (List.replicate k .caller) s0 = some s1 ∧
        s1.caller = .idle ∧ s1.thread_ = none ∧ s1.stopped = true ∧
        (∀ (j : Nat) (t : Thread), s1.threads[j]? = some t →
          t.joined = true ∧ t.pc.finished = true) ∧
        exec (List.replicate 5 .caller) s1 = some { s1 with program := rest }) := by
  have hinv : Consistent s0 ∧ StopRequested s0 :=
    ⟨quiescent_consistent h0, quiescent_stopRequested h0⟩
  constructor
  · intro tr s s1 rest hs hc h1 hp
    obtain ⟨hcons, hq⟩ := exec_stopRequested hinv hs
    exact stop_returns_clean hcons hq rest hc h1 hp
  · intro rest hp hfin
    obtain ⟨k, s, s1, hk, hs, hc, h1, hp1, hst⟩ := stop_completes h0 (.stop :: rest) hp hfin
    obtain ⟨hcons, hq⟩ := exec_stopRequested hinv hs
    obtain ⟨c1, c2, c3, c4⟩ := stop_returns_clean hcons hq rest hc h1 hp1
    refine ⟨k + 1, s1, by omega, ?_, c1, c2, hst, c3, c4⟩
    rw [List.replicate_add, exec_append, hs]
    simp [List.replicate, exec, h1]

theorem stuck_step {s s' : State} (h : Stuck s) {a : Action} (hs : step a s = some s') :
    Stuck s' := by
  obtain ⟨hc, hth, pc, ht, hpc⟩ := h
  cases a with
  | caller =>
    exfalso
    rcases hpc with hd | ⟨rfl, -, -⟩
    · cases pc <;> simp [RunPc.dead] at hd <;>
        simp [step, call, stop, hc, hth, finished, ht] at hs
    · simp [step, call, stop, hc, hth, finished, ht] at hs
  | tick =>
    simp only [step, Option.some.injEq] at hs
    subst hs
    exact ⟨hc, hth, pc, ht, hpc⟩
  | spurious => simp [step, hc] at hs
  | raise i e =>
    cases i with
    | succ k => simp [step, run_raise, ht] at hs
    | zero =>
      rcases hpc with hd | ⟨rfl, -, -⟩
      · cases pc <;> simp [RunPc.dead] at hd <;> simp [step, run_raise, ht] at hs
      · simp only [step, run_raise, ht, List.getElem?_cons_zero, Option.some.injEq] at hs
        subst hs
        exact ⟨hc, hth, .catchReset e, by simp [goto, ht], Or.inl rfl⟩
  | worker i =>
    cases i with
    | succ k => simp [step, run, ht] at hs
    | zero =>
      rcases hpc with hd | ⟨rfl, hst, hw⟩
      · cases pc <;> simp [RunPc.dead] at hd
        case catchReset e =>
          simp only [step, run, ht, List.getElem?_cons_zero, Option.some.injEq] at hs
          subst hs
          exact ⟨hc, hth, .rethrow e, by simp [goto, ht], Or.inl rfl⟩
        case rethrow e =>
          simp only [step, run, ht, List.getElem?_cons_zero, Option.some.injEq] at hs
          subst hs
          exact ⟨hc, hth, .threw e, by simp [goto, ht], Or.inl rfl⟩
        case threw e => simp [step, run, ht] at hs
      · simp only [step, run, ht, List.getElem?_cons_zero, hst] at hs
        cases hq : s.queue with
        | nil =>
          have hw0 : 0 < s.timer_waits := by
            rcases hw with hw | ⟨err, hm⟩
            · exact hw
            · simp [hq] at hm
          simp only [hq, Nat.ne_of_gt hw0] at hs
          by_cases he : s.timer_expiry ≤ s.now
          · simp only [he, if_true] at hs
            simp only [Bool.false_eq_true, if_false, Option.some.injEq] at hs
            subst hs
            refine ⟨hc, hth, .serviceRun, rfl, Or.inr ⟨rfl, rfl, Or.inr ⟨.success, ?_⟩⟩⟩
            simp only [List.mem_replicate]
            exact ⟨Nat.ne_of_gt hw0, trivial⟩
          · simp [he] at hs
        | cons hd rest =>
          cases hd with
          | posted f =>
            simp only [hq] at hs
            have hw' : 0 < s.timer_waits ∨ ∃ err, Handler.timer err ∈ rest := by
              rcases hw with hw | ⟨err, hm⟩
              · exact Or.inl hw
              · right
                refine ⟨err, ?_⟩
                simpa [hq] using hm
            cases hf : f.raises with
            | none =>
              simp only [hf, Bool.false_eq_true, if_false, Option.some.injEq] at hs
              subst hs
              exact ⟨hc, hth, .serviceRun, rfl, Or.inr ⟨rfl, rfl, hw'⟩⟩
            | some e =>
              simp only [hf, Bool.false_eq_true, if_false, Option.some.injEq] at hs
              subst hs
              exact ⟨hc, hth, .catchReset e, by simp [goto, ht], Or.inl rfl⟩
          | timer err =>
            simp only [hq, Bool.false_eq_true, if_false, Option.some.injEq] at hs
            subst hs
            refine ⟨hc, hth, .serviceRun, rfl, Or.inr ⟨rfl, rfl, Or.inl ?_⟩⟩
            simp [timer_callback, async_wait]

/-- C9 fails on the code: `stop_race_trace` is an interleaving of `start(); stop()`
with the worker.  At its end the caller is inside the join of stop() (l.130), the
worker has cleared the stop request again (`stopped` is false) and is inside
`service_.run()` with the keep-alive wait pending; whatever is scheduled next, the
caller never leaves that join. -/
theorem stop_can_hang :
    exec stop_race_trace (AsyncService false [.start, .stop]) = some engine_hung ∧
      engine_hung.caller = .stopJoin ∧ engine_hung.stopped = false ∧
      pcOf engine_hung 0 = some .serviceRun ∧
      ∀ (tr : List Action) (s' : State), exec tr engine_hung = some s' →
        s'.caller = .stopJoin := by
  refine ⟨rfl, rfl, rfl, rfl, ?_⟩
  intro tr s' hs'
  refine (exec_preserves Stuck (fun _ _ _ h hs => stuck_step h hs) tr _ s' ?_ hs').1
  exact ⟨rfl, rfl, .serviceRun, rfl, Or.inr ⟨rfl, rfl, Or.inl (by decide)⟩⟩

theorem spinning_step {s : State} {i : Nat} (h : Spinning s i) :
    ∃ s', step (.worker i) s = some s' ∧ Spinning s' i ∧ s'.now = s.now ∧
      s'.timerCalls = s.timerCalls ++ [abortedCall s.now] := by
  obtain ⟨hpc, hst, hq, hw⟩ := h
  obtain ⟨t, ht, htp⟩ : ∃ t, s.threads[i]? = some t ∧ t.pc = .serviceRun := by
    simpa [pcOf] using hpc
  refine ⟨_, by simp only [step, run, ht, htp, hst, hq]; rfl, ?_, ?_, ?_⟩
  · refine ⟨?_, ?_, ?_, ?_⟩
    · simpa [pcOf, timer_callback, async_wait, expires_from_now, cancel] using hpc
    · simp [timer_callback, async_wait, expires_from_now, cancel, hst]
    · simp [timer_callback, async_wait, expires_from_now, cancel, hw]
    · simp [timer_callback, async_wait, expires_from_now, cancel]
  · simp [timer_callback, async_wait, expires_from_now, cancel]
  · simp [timer_callback, async_wait, expires_from_now, cancel, abortedCall]

theorem spinning_steps (i k : Nat) :
    ∀ s : State, Spinning s i →
      ∃ s', exec (List.replicate k (.worker i)) s = some s' ∧ Spinning s' i ∧ s'.now = s.now ∧
        s'.timerCalls = s.timerCalls ++ List.replicate k (abortedCall s.now) := by
  induction k with
  | zero =>
    intro s h
    exact ⟨s, rfl, h, rfl, by simp⟩
  | succ k ih =>
    intro s h
    obtain ⟨s1, h1, hsp, hn, hl⟩ := spinning_step h
    obtain ⟨s2, h2, hsp2, hn2, hl2⟩ := ih s1 hsp
    refine ⟨s2, ?_, hsp2, by rw [hn2, hn], ?_⟩
    · simp [List.replicate, exec, h1, h2]
    · rw [hl2, hl, hn, List.append_assoc]
      rfl

theorem engine_started_reached (rest : List Op) :
    exec (start_trace 0) (AsyncService false (.start :: rest)) = some (engine_started rest) :=
  rfl

theorem engine_joined_reached (rest : List Op) :
    exec (join_trace 0) (engine_started (.stop :: rest)) = some (engine_joined rest) :=
  rfl

theorem engine_stopped_reached (rest : List Op) :
    exec (stop_trace 0) (engine_started (.stop :: rest)) = some (engine_stopped rest) :=
  rfl

theorem engine_restarted_reached (rest : List Op) :
    exec (start_trace 1) (engine_stopped (.start :: rest)) = some (engine_restarted rest) :=
  rfl

theorem restart_trace_reached (rest : List Op) :
    exec restart_trace (AsyncService false (.start :: .stop :: .start :: rest)) =
      some (engine_restarted rest) := by
  simp [restart_trace, exec_append, engine_started_reached, engine_stopped_reached,
    engine_restarted_reached]

/-- C8 fails on the code in the second start cycle.  Every invocation of
`timer_callback` does leave exactly one pending wait expiring 1000 ms later; but
after `restart_trace` (start, 5 ms, stop, start) the `cancel()` of l.69 has completed
the wait left over from the first cycle with `operation_aborted`, the callback
ignores that code and re-arms, which aborts the wait armed at l.70, and so on:
`k` further loop iterations invoke the callback `k` more times with
`operation_aborted`, all at the same clock value, for every `k`. -/
theorem keepalive_spins_after_restart :
    (∀ (s : State) (err : ErrorCode),
      (timer_callback s err).timer_waits = 1 ∧
        (timer_callback s err).timer_expiry = s.now + 1000) ∧
    exec restart_trace (AsyncService false [.start, .stop, .start]) =
      some (engine_restarted []) ∧
    ∀ k : Nat, ∃ s', exec (List.replicate k (.worker 1)) (engine_restarted []) = some s' ∧
      s'.now = 5 ∧
      s'.timerCalls = (engine_restarted []).timerCalls ++ List.replicate k (abortedCall 5) := by
  refine ⟨fun s err => ⟨rfl, rfl⟩, restart_trace_reached [], ?_⟩
  intro k
  obtain ⟨s', h1, -, h2, h3⟩ :=
    spinning_steps 1 k (engine_restarted []) ⟨rfl, rfl, rfl, rfl⟩
  exact ⟨s', h1, h2, h3⟩

theorem deliver_stale (r : StreamReader) (ev : Completion) (h : ev.readId ≠ r.readId_) :
    deliver r ev = r := by
  cases ev with
  | data id err n => simp [Completion.readId] at h; simp [deliver, async_read_continue, h]
  | timer id err => simp [Completion.readId] at h; simp [deliver, timeout_reached, h]

/-- One delivery for the current generation: either the read goes on under the
same `readId_`, or it finalizes, which bumps `readId_` and adds one callback. -/
theorem deliver_current (r : StreamReader) (ev : Completion) :
    ((deliver r ev).readId_ = r.readId_ ∧ (deliver r ev).callbacks = r.callbacks) ∨
    ((deliver r ev).readId_ = bump r.readId_ ∧
      (deliver r ev).callbacks.length = r.callbacks.length + 1) := by
  cases ev with
  | data id err n =>
    simp only [deliver, async_read_continue]
    by_cases h : id = r.readId_
    · simp only [h, ne_eq, not_true_eq_false, if_false]
      cases err with
      | some code => right; simp [finalize]
      | none =>
        simp only
        split
        · right; simp [finalize]
        · left; simp
    · left; simp [h]
  | timer id err =>
    simp only [deliver, timeout_reached]
    by_cases h : id = r.readId_
    · right; simp [h, finalize]
    · left; simp [h]

theorem deliver_issued (r : StreamReader) (ev : Completion) :
    ∃ new, (deliver r ev).issued = r.issued ++ new ∧
      ∀ x ∈ new, ∀ id, x.readId = some id → id = r.readId_ := by
  cases ev with
  | data id err n =>
    simp only [deliver, async_read_continue]
    by_cases h : id = r.readId_
    · simp only [h, ne_eq, not_true_eq_false, if_false]
      cases err with
      | some code => exact ⟨[.cancelTimer], by simp [finalize], by simp [Issued.readId]⟩
      | none =>
        simp only
        split
        · exact ⟨[.cancelTimer], by simp [finalize], by simp [Issued.readId]⟩
        · exact ⟨_, rfl, by simp [Issued.readId]⟩
    · exact ⟨[], by simp [h], by simp⟩
  | timer id err =>
    simp only [deliver, timeout_reached]
    by_cases h : id = r.readId_
    · exact ⟨[.cancelRead], by simp [h, finalize], by simp [Issued.readId]⟩
    · exact ⟨[], by simp [h], by simp⟩

theorem callbacks_bounded (id0 : Nat) (base : Nat) :
    ∀ (evs : List Completion) (r : StreamReader),
      (∀ ev ∈ evs, ev.readId ≠ bump id0) →
      ((r.readId_ = id0 ∧ r.callbacks.length = base) ∨
        (r.readId_ = bump id0 ∧ r.callbacks.length = base + 1)) →
      (evs.foldl deliver r).callbacks.length ≤ base + 1 := by
  intro evs
  induction evs with
  | nil =>
    intro r _ h
    rcases h with ⟨-, h⟩ | ⟨-, h⟩ <;> simp [h]
  | cons ev evs ih =>
    intro r hev h
    simp only [List.foldl_cons]
    apply ih _ (fun e he => hev e (by simp [he]))
    rcases h with ⟨h1, h2⟩ | ⟨h1, h2⟩
    · rcases deliver_current r ev with ⟨e1, e2⟩ | ⟨e1, e2⟩
      · left; exact ⟨by rw [e1, h1], by rw [e2, h2]⟩
      · right; exact ⟨by rw [e1, h1], by rw [e2, h2]⟩
    · have : deliver r ev = r := deliver_stale r ev (by rw [h1]; exact hev ev (by simp))
      right
      rw [this]
      exact ⟨h1, h2⟩

theorem async_read_issued (r : StreamReader) (count data timeoutMillis : Nat) :
    ∃ new, (async_read r count data timeoutMillis).issued = r.issued ++ new ∧
      ∀ x ∈ new, x.readId = some (async_read r count data timeoutMillis).readId_ := by
  refine ⟨_, List.append_assoc _ _ _, ?_⟩
  intro x hx
  simp only [List.mem_append, List.mem_singleton] at hx
  rcases hx with hx | rfl
  · split at hx
    · simp only [List.mem_singleton] at hx
      subst hx
      rfl
    · simp at hx
  · rfl

/-- C6: a completion whose `readId` differs from the reader's current `readId_` is
discarded: the reader is left exactly as it was (no callback, `processed_`
unchanged).  Every operation `async_read` or a delivery issues is bound to the
`readId_` current at that moment.  Hence after one `async_read` call, whatever
completions are then delivered (none of them carrying the generation that only
the finalization of this call moves to), the user callback is invoked at most
once. -/
theorem stale_completions_fire_once (r : StreamReader) (count data timeoutMillis : Nat)
    (evs : List Completion)
    (hid : ∀ ev ∈ evs, ev.readId ≠ bump (async_read r count data timeoutMillis).readId_) :
    (∀ (r' : StreamReader) (ev : Completion), ev.readId ≠ r'.readId_ →
      deliver r' ev = r') ∧
    (∃ new, (async_read r count data timeoutMillis).issued = r.issued ++ new ∧
      ∀ x ∈ new, x.readId = some (async_read r count data timeoutMillis).readId_) ∧
    (∀ (r' : StreamReader) (ev : Completion), ∃ new,
      (deliver r' ev).issued = r'.issued ++ new ∧
        ∀ x ∈ new, ∀ id, x.readId = some id → id = r'.readId_) ∧
    (evs.foldl deliver (async_read r count data timeoutMillis)).callbacks.length ≤
      r.callbacks.length + 1 := by
  refine ⟨deliver_stale, async_read_issued r count data timeoutMillis, deliver_issued, ?_⟩
  exact callbacks_bounded _ _ evs _ hid (Or.inl ⟨rfl, rfl⟩)

theorem engine_joined_from_fresh (rest : List Op) :
    exec (start_trace 0 ++ join_trace 0) (AsyncService false (.start :: .stop :: rest)) =
      some (engine_joined rest) := by
  simp [exec_append, engine_started_reached, engine_joined_reached]

theorem engine_stopped_from_fresh (rest : List Op) :
    exec (start_trace 0 ++ stop_trace 0) (AsyncService false (.start :: .stop :: rest)) =
      some (engine_stopped rest) := by
  simp [exec_append, engine_started_reached, engine_stopped_reached]

theorem engine_returning_reached (rest : List Op) :
    exec returning_trace (AsyncService false (.start :: rest)) = some (engine_returning rest) :=
  rfl

theorem engine_raising_reached :
    exec raising_trace (AsyncService false early_exit_program) = some engine_raising :=
  rfl

theorem quiescent_fresh (n : Bool) (p : List Op) : Quiescent (AsyncService n p) :=
  ⟨rfl, rfl, rfl, Or.inl ⟨rfl, rfl, by simp [AsyncService]⟩⟩

theorem quiescent_exited_idle : Quiescent engine_exited_idle := by
  refine ⟨rfl, rfl, rfl, Or.inr ⟨0, .returned, rfl, rfl, rfl, rfl, ?_⟩⟩
  intro j t ht hj
  cases j with
  | zero => exact absurd rfl hj
  | succ k => simp [engine_exited_idle] at ht

/-- Witness for C1: two stop() calls on an engine whose worker has already left
run(), and start(), stop(), stop() on a fresh engine. -/
theorem stop_idempotent_witness :
    Quiescent engine_exited_idle ∧
      (∃ (k : Nat) (s1 : State), k ≤ 6 ∧
        exec (List.replicate k .caller) engine_exited_idle = some s1 ∧
        s1.caller = .idle ∧ s1.thread_ = none ∧ s1.stopped = true ∧
        (∀ (j : Nat) (t : Thread), s1.threads[j]? = some t →
          t.joined = true ∧ t.pc.finished = true) ∧
        exec (List.replicate 5 .caller) s1 = some { s1 with program := [] }) ∧
      exec (start_trace 0 ++ join_trace 0) (AsyncService false [.start, .stop, .stop]) =
        some (engine_joined [.stop]) ∧
      exec (List.replicate 5 .caller) (engine_stopped [.stop]) = some (engine_stopped []) :=
  ⟨quiescent_exited_idle,
    (stop_idempotent engine_exited_idle quiescent_exited_idle).2 [] rfl
      (by
        intro i hi
        simp only [engine_exited_idle, Option.some.injEq] at hi
        subst hi
        rfl),
    engine_joined_from_fresh [.stop],
    ((stop_idempotent (AsyncService false [.start, .stop, .stop])
        (quiescent_fresh false [.start, .stop, .stop])).1
      (start_trace 0 ++ join_trace 0) (engine_joined [.stop]) (engine_stopped [.stop]) []
      (engine_joined_from_fresh [.stop]) rfl rfl rfl).2.2.2⟩

/-- Witness for C2: a start() whose worker is inside its loop when the caller
returns. -/
theorem start_returns_after_announce_witness :
    exec returning_trace (AsyncService false [.start]) = some (engine_returning []) ∧
      (engine_returning []).waiterWasNotified_ = true ∧
      ∃ pc s1, ((engine_returning []).thread_.bind (pcOf (engine_returning []))) = some pc ∧
        pc.after = true ∧ step .caller (engine_returning []) = some s1 ∧ s1.caller = .idle ∧
        s1.threads = (engine_returning []).threads ∧
        s1.thread_ = (engine_returning []).thread_ ∧ is_running s1 = pc.running :=
  ⟨engine_returning_reached [],
    start_returns_after_announce false [.start] returning_trace (engine_returning [])
      (engine_returning_reached []) rfl⟩

/-- Witness for C4: a second start() on the engine that is running. -/
theorem start_noop_when_running_witness :
    (engine_started [.start]).isRunning_ = true ∧
      exec [.caller, .caller, .caller] (engine_started [.start]) = some (engine_started []) :=
  ⟨rfl, (start_noop_when_running (engine_started [.start]) [] rfl rfl rfl rfl).1⟩

/-- Witness for C5: the worker invokes a posted function that raises 1. -/
theorem run_rethrows_and_resets_witness :
    exec raising_trace (AsyncService false early_exit_program) = some engine_raising ∧
      ∃ s1, step (.worker 0) engine_raising = some s1 ∧ pcOf s1 0 = some (.catchReset 1) :=
  ⟨engine_raising_reached,
    (run_rethrows_and_resets false early_exit_program raising_trace engine_raising
      engine_raising_reached 0 1 .serviceRun rfl).2.1 rfl rfl _ _ rfl rfl⟩

/-- Witness for C6: a 4-byte read with a 50 ms deadline, then `late_events`. -/
theorem stale_completions_fire_once_witness :
    (∀ ev ∈ late_events, ev.readId ≠ bump (async_read reader0 4 0 50).readId_) ∧
      (late_events.foldl deliver (async_read reader0 4 0 50)).callbacks.length ≤ 1 :=
  have h : ∀ ev ∈ late_events, ev.readId ≠ bump (async_read reader0 4 0 50).readId_ := by
    decide
  ⟨h, (stale_completions_fire_once reader0 4 0 50 late_events h).2.2.2⟩

/-- Witness for C7: the cleanup on `engine_exited`. -/
theorem start_cleans_up_before_spawn_witness :
    engine_exited.isRunning_ = false ∧ engine_exited.thread_ = some 0 ∧
      exec (List.replicate 7 .caller) engine_exited =
        some { engine_exited with
          thread_ := some 1,
          threads := [{ pc := .returned, joined := true }, spawned],
          waitMutex_ := true, caller := .startJoinable } :=
  ⟨rfl, rfl,
    (start_cleans_up_before_spawn engine_exited 0 rfl rfl rfl rfl
      (by
        intro j u hu hj
        cases j with
        | zero => exact absurd rfl hj
        | succ k => simp [engine_exited] at hu)
      rfl).2.2.2.1⟩

/-- Witness for C10: the engine after start() and stop(). -/
theorem not_running_without_worker_witness :
    exec (start_trace 0 ++ stop_trace 0) (AsyncService false [.start, .stop]) =
        some (engine_stopped []) ∧
      is_running (engine_stopped []) = false :=
  ⟨engine_stopped_from_fresh [],
    (not_running_without_worker false [.start, .stop] (start_trace 0 ++ stop_trace 0)
      (engine_stopped []) (engine_stopped_from_fresh [])).1
      (by
        intro j t ht
        cases j with
        | zero =>
          simp only [engine_stopped, List.getElem?_cons_zero, Option.some.injEq] at ht
          subst ht
          rfl
        | succ k => simp [engine_stopped] at ht)⟩

end rtac.asio
